import Mathlib

/-!
A shallow embedding of the Go package `varnishlog` (`varnishlog.go`).

A Go string is taken to be valid UTF-8 and is modelled as the list of its characters
(`GoString`). Every character the code looks for is ASCII (`*`, `-`, the space, digits,
the classes of the line pattern), so splitting and matching do not depend on the
encoding; only `strings.TrimSpace` looks at characters beyond ASCII.

A Go function with named results `(x T, err error)` is a function into `T × Option Error`,
where `none` is the `nil` error: both results are returned on every path, as in Go.

The channel read by `ParseTransaction` is the finite list of the lines sent on it before it
is closed. The reader returns its two results together with the lines it has not received,
so that a second call on the same channel is a call on that remainder.

The regular expression is a list of greedy repetitions of character classes, matched by
a backtracking search that tries the longest repetition first, which is the match
Go's `regexp` returns (leftmost-first).
-/

namespace Varnishlog

/-- A Go `string`, as the list of its characters. -/
abbrev GoString := List Char

/-! ## Standard library: `strconv`, `strings`, `unicode`, `io`, `regexp` -/

/-- The two sentinel errors a `*strconv.NumError` can wrap. -/
inductive NumErr where
  | ErrSyntax
  | ErrRange
  deriving DecidableEq, Repr

/-- The error values the package can return. -/
inductive Error where
  /-- `io.EOF` -/
  | EOF
  /-- `fmt.Errorf("ParseLine: failed to parse %q", s)` -/
  | ParseLineFailed (s : GoString)
  /-- `fmt.Errorf("%q: expected 3 parts, got %d", s, n)` -/
  | ExpectedParts (s : GoString) (n : Nat)
  /-- `&strconv.NumError{Func: "ParseUint", Num: num, Err: err}` -/
  | NumError (num : GoString) (err : NumErr)
  deriving DecidableEq, Repr

/-- Width of Go's `uint` on the 64-bit targets the package is built for. -/
def uintSize : Nat := 64

/-- The conversion `uint(v)` of a `uint64` value. -/
def toUint (v : Nat) : Nat := v % 2 ^ uintSize

/-- `1<<64 - 1` -/
def maxUint64 : Nat := 2 ^ 64 - 1

/-- `'0' <= c && c <= '9'` -/
def isDigit (c : Char) : Bool := decide ('0'.toNat ≤ c.toNat) && decide (c.toNat ≤ '9'.toNat)

/-- The loop of `strconv.ParseUint(s0, 10, 64)` over the remaining bytes, `n` being the
value accumulated so far. A byte that is not a decimal digit is a syntax error (a letter
is a digit value of at least 10, which is not below the base). -/
def ParseUintLoop (s0 : GoString) : Nat → GoString → Nat × Option Error
  | n, [] => (n, none)
  | n, c :: cs =>
    if isDigit c then
      let d := c.toNat - '0'.toNat
      -- cutoff = maxUint64/10 + 1
      if n ≥ maxUint64 / 10 + 1 then
        (maxUint64, some (Error.NumError s0 NumErr.ErrRange))
      else
        let n10 := (n * 10) % 2 ^ 64
        let n1 := (n10 + d) % 2 ^ 64
        if n1 < n10 ∨ n1 > maxUint64 then
          (maxUint64, some (Error.NumError s0 NumErr.ErrRange))
        else ParseUintLoop s0 n1 cs
    else (0, some (Error.NumError s0 NumErr.ErrSyntax))

/-- `strconv.ParseUint(s, 10, 64)` -/
def ParseUint (s : GoString) : Nat × Option Error :=
  if s = [] then (0, some (Error.NumError s NumErr.ErrSyntax))
  else ParseUintLoop s 0 s

/-- `strings.Split(s, sep)` for a separator of one character: the substrings between
the separators, empty ones included; never an empty slice. -/
def Split (sep : Char) : GoString → List GoString
  | [] => [[]]
  | c :: cs =>
    if c = sep then [] :: Split sep cs
    else
      match Split sep cs with
      | [] => [[c]]
      | p :: ps => (c :: p) :: ps

/-- `unicode.IsSpace`: the Latin-1 cases and the `White_Space` table. -/
def IsSpace (c : Char) : Bool :=
  let r := c.toNat
  if r ≤ 0xFF then
    r = 0x09 || r = 0x0A || r = 0x0B || r = 0x0C || r = 0x0D || r = 0x20 || r = 0x85 || r = 0xA0
  else
    r = 0x1680 || (decide (0x2000 ≤ r) && decide (r ≤ 0x200A)) || r = 0x2028 || r = 0x2029
      || r = 0x202F || r = 0x205F || r = 0x3000

/-- `strings.TrimSpace` -/
def TrimSpace (s : GoString) : GoString :=
  ((s.dropWhile IsSpace).reverse.dropWhile IsSpace).reverse

/-- `strings.HasPrefix(s, prefix)` for a prefix of one character. -/
def HasPrefix (s : GoString) (c : Char) : Bool :=
  match s with
  | [] => false
  | a :: _ => a = c

/-! ### The regular expression -/

/-- The class `\-`. -/
def reDash (c : Char) : Bool := c = '-'

/-- The Perl class `\s`, which is `[\t\n\f\r ]`. -/
def reSpace (c : Char) : Bool :=
  c = '\t' || c = '\n' || c = Char.ofNat 0x0C || c = '\r' || c = ' '

/-- The Perl class `\w`, which is `[0-9A-Za-z_]`. -/
def reWord (c : Char) : Bool :=
  (decide ('0'.toNat ≤ c.toNat) && decide (c.toNat ≤ '9'.toNat))
    || (decide ('A'.toNat ≤ c.toNat) && decide (c.toNat ≤ 'Z'.toNat))
    || (decide ('a'.toNat ≤ c.toNat) && decide (c.toNat ≤ 'z'.toNat))
    || c = '_'

/-- The class `.` (no `s` flag): any character but a newline. -/
def reAny (c : Char) : Bool := c != '\n'

/-- A greedy repetition `c*` (`min = 0`) or `c+` (`min = 1`) of a character class. -/
structure Rep where
  cls : Char → Bool
  min : Nat

/-- Try the repetition at lengths `n, n-1, ..., min` (longest first), each time running
the rest of the pattern `cont` on what is left: the first length that lets the rest
match wins. -/
def tryFrom (cont : GoString → Option (List GoString)) (min : Nat) (s : GoString) :
    Nat → Option (List GoString)
  | 0 => if min = 0 then (cont s).map (fun gs => [] :: gs) else none
  | n + 1 =>
    if n + 1 < min then none
    else
      match cont (s.drop (n + 1)) with
      | some gs => some (s.take (n + 1) :: gs)
      | none => tryFrom cont min s n

/-- Leftmost-first (backtracking) match of `^r1 r2 ... rk$` against `s`: the text matched
by each repetition, or `none` when there is no match. -/
def matchReps : List Rep → GoString → Option (List GoString)
  | [], s => if s = [] then some [] else none
  | r :: rs, s => tryFrom (matchReps rs) r.min s (s.takeWhile r.cls).length

/-- The pattern `^\-+\s+(\w+)\s*(.*)$`. -/
def lineRE : List Rep :=
  [⟨reDash, 1⟩, ⟨reSpace, 1⟩, ⟨reWord, 1⟩, ⟨reSpace, 0⟩, ⟨reAny, 0⟩]

/-- `lineRE.FindStringSubmatch(s)`, without the whole match: the two capture groups. -/
def FindStringSubmatch (s : GoString) : Option (GoString × GoString) :=
  match matchReps lineRE s with
  | some [_, _, tag, _, value] => some (tag, value)
  | _ => none

/-! ## The package -/

/-- Line is a pair of tag and value. -/
structure Line where
  Tag : GoString
  Value : GoString
  deriving DecidableEq, Repr

/-- `func (l Line) String() string` -/
def Line.String (l : Line) : GoString := l.Tag ++ [' '] ++ l.Value

/-- ParseLine parses varnishlog line. -/
def ParseLine (s : GoString) : Line × Option Error :=
  match FindStringSubmatch s with
  | none => (⟨[], []⟩, some (Error.ParseLineFailed s))
  | some (tag, value) => (⟨tag, value⟩, none)

/-- Reference contains information about parent or child transaction. -/
structure Reference where
  /-- The field `Type` of the source (a reserved word here). -/
  Type_ : GoString
  VXID : Nat
  Reason : GoString
  deriving DecidableEq, Repr

/-- ParseReference parses Reference from given string value. The first case is
`len(p) == 3`, with `p[0]`, `p[1]`, `p[2]` named; the last case is `len(p) != 3`. -/
def ParseReference (s : GoString) : Reference × Option Error :=
  match Split ' ' s with
  | [p0, p1, p2] =>
    match ParseUint p1 with
    | (_, some err) => (⟨[], 0, []⟩, some err)
    | (vxid, none) => (⟨p0, toUint vxid, p2⟩, none)
  | p => (⟨[], 0, []⟩, some (Error.ExpectedParts s p.length))

/-- Transaction is a single unit of Varnish work. -/
structure Transaction where
  VXID : Nat
  Begin : Reference
  Lines : List Line
  deriving DecidableEq, Repr

/-- The `for line := range lines` loop of `ParseTransaction`, from the state `t` of the
named result: the returned transaction and error, and the lines not received. -/
def ParseTransactionLoop (t : Transaction) :
    List GoString → (Transaction × Option Error) × List GoString
  | [] => ((t, some Error.EOF), [])
  | raw :: rest =>
    let line := TrimSpace raw
    if line = [] then ParseTransactionLoop t rest
    else if HasPrefix line '*' then
      -- transaction start
      let p := Split ' ' line
      match ParseUint (p.getLastD []) with
      | (_, some err) => ((t, some err), rest)
      | (vxid, none) => ParseTransactionLoop { t with VXID := toUint vxid } rest
    else
      -- transaction line
      match ParseLine line with
      | (_, some err) => ((t, some err), rest)
      | (l, none) =>
        let t1 := { t with Lines := t.Lines ++ [l] }
        if l.Tag = "Begin".toList then
          match ParseReference l.Value with
          | (_, some err) => ((t1, some err), rest)
          | (ref, none) => ParseTransactionLoop { t1 with Begin := ref } rest
        else if l.Tag = "End".toList then ((t1, none), rest)
        else ParseTransactionLoop t1 rest

/-- ParseTransaction reads lines for given channel and returns next transaction, or error.
It returns io.EOF when channel is closed. -/
def ParseTransaction (lines : List GoString) :
    (Transaction × Option Error) × List GoString :=
  ParseTransactionLoop ⟨0, ⟨[], 0, []⟩, []⟩ lines

/-! ## Definitions used to state the properties -/

/-- The match of the line pattern, read off without backtracking: the longest run of
dashes, the longest run of whitespace, the longest run of word characters (the tag), the
longest run of whitespace, and the rest (the value), which must hold no newline. -/
def lineFields (s : GoString) : Option (GoString × GoString) :=
  let s1 := s.dropWhile reDash
  let s2 := s1.dropWhile reSpace
  let s3 := s2.dropWhile reWord
  let v := s3.dropWhile reSpace
  if s.takeWhile reDash ≠ [] ∧ s1.takeWhile reSpace ≠ [] ∧ s2.takeWhile reWord ≠ []
      ∧ v.dropWhile reAny = [] then
    some (s2.takeWhile reWord, v)
  else none

/-- The number a string of decimal digits denotes. -/
def decimalValue (s : GoString) : Nat :=
  s.foldl (fun n c => n * 10 + (c.toNat - '0'.toNat)) 0

/-- The line is read without an error and without ending the transaction: once trimmed
it is blank, or a boundary line whose last field is a valid identifier, or a content
line that parses, is not tagged `End` and, when tagged `Begin`, holds a valid reference. -/
def Continues (raw : GoString) : Prop :=
  TrimSpace raw = [] ∨
  (HasPrefix (TrimSpace raw) '*' = true
    ∧ (ParseUint ((Split ' ' (TrimSpace raw)).getLastD [])).2 = none) ∨
  ((ParseLine (TrimSpace raw)).2 = none
    ∧ (ParseLine (TrimSpace raw)).1.Tag ≠ "End".toList
    ∧ ((ParseLine (TrimSpace raw)).1.Tag = "Begin".toList →
        (ParseReference (ParseLine (TrimSpace raw)).1.Value).2 = none))

instance (raw : GoString) : Decidable (Continues raw) := by
  unfold Continues
  infer_instance

/-- The line, once trimmed, is a content line tagged `End`. -/
def Ends (raw : GoString) : Prop :=
  (ParseLine (TrimSpace raw)).2 = none ∧ (ParseLine (TrimSpace raw)).1.Tag = "End".toList

instance (raw : GoString) : Decidable (Ends raw) := by
  unfold Ends
  infer_instance

/-- The identifiers of the boundary lines of a stream, in stream order. -/
def boundaryIds (stream : List GoString) : List Nat :=
  stream.filterMap (fun raw =>
    if HasPrefix (TrimSpace raw) '*' = true then
      some (toUint (ParseUint ((Split ' ' (TrimSpace raw)).getLastD [])).1)
    else none)

/-- The parsed content lines of a stream (the lines that, once trimmed, are neither blank
nor boundary lines), in stream order. -/
def contentLines (stream : List GoString) : List Line :=
  stream.filterMap (fun raw =>
    if TrimSpace raw = [] ∨ HasPrefix (TrimSpace raw) '*' = true then none
    else some (ParseLine (TrimSpace raw)).1)

/-- The parsed references of the lines tagged `Begin`, in order. -/
def beginRefs (ls : List Line) : List Reference :=
  (ls.filter (fun l => l.Tag = "Begin".toList)).map (fun l => (ParseReference l.Value).1)

/-- A complete block: lines that are read without error and without ending the
transaction, then a line tagged `End`. -/
def CompleteBlock (b : List GoString) : Prop :=
  ∃ pre e, b = pre ++ [e] ∧ (∀ raw ∈ pre, Continues raw) ∧ Ends e

/-- The results of `k` successive calls of `ParseTransaction` on one channel, and the
lines left on it. -/
def successiveCalls : Nat → List GoString → List (Transaction × Option Error) × List GoString
  | 0, s => ([], s)
  | k + 1, s =>
    ((ParseTransaction s).1 :: (successiveCalls k (ParseTransaction s).2).1,
      (successiveCalls k (ParseTransaction s).2).2)


/-- The line makes the read fail with the error `err`: once trimmed it is a boundary line
whose last field does not parse as an identifier, or a line that is neither blank nor a
boundary line and does not match the line pattern, or a content line tagged `Begin` whose
value is not a valid reference. -/
def Fails (raw : GoString) (err : Error) : Prop :=
  (HasPrefix (TrimSpace raw) '*' = true
    ∧ (ParseUint ((Split ' ' (TrimSpace raw)).getLastD [])).2 = some err) ∨
  (TrimSpace raw ≠ [] ∧ HasPrefix (TrimSpace raw) '*' = false
    ∧ (ParseLine (TrimSpace raw)).2 = some err) ∨
  ((ParseLine (TrimSpace raw)).2 = none
    ∧ (ParseLine (TrimSpace raw)).1.Tag = "Begin".toList
    ∧ (ParseReference (ParseLine (TrimSpace raw)).1.Value).2 = some err)

/-- The lines of a stream that, once trimmed, match the line pattern, parsed, in stream
order. -/
def parsedLines (stream : List GoString) : List Line :=
  stream.filterMap (fun raw =>
    if (ParseLine (TrimSpace raw)).2 = none then some (ParseLine (TrimSpace raw)).1 else none)

/-- The stream without its blank lines (the lines that are empty once trimmed). -/
def dropBlank (stream : List GoString) : List GoString :=
  stream.filter (fun raw => decide (TrimSpace raw ≠ []))

/-- The line, once trimmed, is a well-formed content line that does not end the
transaction: it matches the line pattern, is not tagged `End` and, when tagged `Begin`,
holds a valid reference. -/
def ContentLine (raw : GoString) : Prop :=
  (ParseLine (TrimSpace raw)).2 = none
    ∧ (ParseLine (TrimSpace raw)).1.Tag ≠ "End".toList
    ∧ ((ParseLine (TrimSpace raw)).1.Tag = "Begin".toList →
        (ParseReference (ParseLine (TrimSpace raw)).1.Value).2 = none)

instance (raw : GoString) : Decidable (ContentLine raw) := by
  unfold ContentLine
  infer_instance

/-- The fields of a split put back together with the separator between them. -/
def unsplit (sep : Char) : List GoString → GoString
  | [] => []
  | [p] => p
  | p :: q :: ps => p ++ sep :: unsplit sep (q :: ps)
/-! ## Lemmas on lists -/

theorem take_length_takeWhile (p : Char → Bool) (s : GoString) :
    s.take (s.takeWhile p).length = s.takeWhile p := by
  induction s with
  | nil => rfl
  | cons a s ih =>
    by_cases h : p a = true
    · simp [List.takeWhile_cons, h, ih]
    · simp [List.takeWhile_cons, h]

theorem drop_length_takeWhile (p : Char → Bool) (s : GoString) :
    s.drop (s.takeWhile p).length = s.dropWhile p := by
  induction s with
  | nil => rfl
  | cons a s ih =>
    by_cases h : p a = true
    · simp [List.takeWhile_cons, List.dropWhile_cons, h, ih]
    · simp [List.takeWhile_cons, List.dropWhile_cons, h]

theorem drop_lt_length_takeWhile (p : Char → Bool) (s : GoString) (k : Nat)
    (hk : k < (s.takeWhile p).length) : ∃ c x, s.drop k = c :: x ∧ p c = true := by
  induction s generalizing k with
  | nil => simp at hk
  | cons a s ih =>
    by_cases h : p a = true
    · cases k with
      | zero => exact ⟨a, s, rfl, h⟩
      | succ k =>
        simp [List.takeWhile_cons, h] at hk
        simpa using ih k hk
    · simp [List.takeWhile_cons, h] at hk

theorem takeWhile_append_stop (p : Char → Bool) (a b : GoString)
    (ha : ∀ c ∈ a, p c = true) (hb : ∀ c, b.head? = some c → p c = false) :
    (a ++ b).takeWhile p = a := by
  induction a with
  | nil =>
    cases b with
    | nil => rfl
    | cons c b => simp [List.takeWhile_cons, hb c rfl]
  | cons x a ih =>
    have hx : p x = true := ha x (List.mem_cons_self _ _)
    simp [List.takeWhile_cons, hx]
    exact ih (fun c hc => ha c (List.mem_cons_of_mem _ hc))

theorem dropWhile_append_stop (p : Char → Bool) (a b : GoString)
    (ha : ∀ c ∈ a, p c = true) (hb : ∀ c, b.head? = some c → p c = false) :
    (a ++ b).dropWhile p = b := by
  induction a with
  | nil =>
    cases b with
    | nil => rfl
    | cons c b => simp [List.dropWhile_cons, hb c rfl]
  | cons x a ih =>
    have hx : p x = true := ha x (List.mem_cons_self _ _)
    simp [List.dropWhile_cons, hx]
    exact ih (fun c hc => ha c (List.mem_cons_of_mem _ hc))

/-! ## The backtracking matcher -/

theorem tryFrom_greedy (cont : GoString → Option (List GoString)) (min : Nat) (s : GoString)
    (n : Nat) (gs : List GoString) (hmin : min ≤ n) (h : cont (s.drop n) = some gs) :
    tryFrom cont min s n = some (s.take n :: gs) := by
  cases n with
  | zero =>
    have : min = 0 := by omega
    simp at h
    simp [tryFrom, this, h]
  | succ n =>
    have : ¬ (n + 1 < min) := by omega
    simp [tryFrom, this, h]

theorem tryFrom_none (cont : GoString → Option (List GoString)) (min : Nat) (s : GoString)
    (n : Nat) (h : ∀ k, min ≤ k → k ≤ n → cont (s.drop k) = none) :
    tryFrom cont min s n = none := by
  induction n with
  | zero =>
    by_cases hm : min = 0
    · have := h 0 (by omega) (by omega)
      simp at this
      simp [tryFrom, hm, this]
    · simp [tryFrom, hm]
  | succ n ih =>
    by_cases hm : n + 1 < min
    · simp [tryFrom, hm]
    · have h1 := h (n + 1) (by omega) (by omega)
      simp only [tryFrom, hm, if_false, h1]
      exact ih (fun k hk hkn => h k hk (by omega))

/-- When a shorter repetition cannot succeed where the longest one fails, the repetition
takes its longest length or the match fails. -/
theorem tryFrom_eq (cont : GoString → Option (List GoString)) (min : Nat) (s : GoString)
    (n : Nat)
    (hback : cont (s.drop n) = none → ∀ k, min ≤ k → k < n → cont (s.drop k) = none) :
    tryFrom cont min s n =
      if min ≤ n then (cont (s.drop n)).map (fun gs => s.take n :: gs) else none := by
  by_cases hmin : min ≤ n
  · simp only [hmin, if_true]
    cases hc : cont (s.drop n) with
    | some gs => simpa using tryFrom_greedy cont min s n gs hmin hc
    | none =>
      simp only [Option.map_none']
      apply tryFrom_none
      intro k hk hkn
      rcases Nat.lt_or_eq_of_le hkn with hlt | heq
      · exact hback hc k hk hlt
      · rw [heq]; exact hc
  · simp only [hmin, if_false]
    apply tryFrom_none
    intro k hk hkn
    omega

theorem mem_drop_of_le (s : GoString) (k n : Nat) (h : k ≤ n) (c : Char)
    (hc : c ∈ s.drop n) : c ∈ s.drop k := by
  have : s.drop n = (s.drop k).drop (n - k) := by
    rw [List.drop_drop]
    congr 1
    omega
  rw [this] at hc
  exact List.mem_of_mem_drop hc

theorem reSpace_not_reWord (c : Char) (h : reSpace c = true) : reWord c = false := by
  simp only [reSpace, Bool.or_eq_true, decide_eq_true_eq] at h
  rcases h with (((h | h) | h) | h) | h <;> subst h <;> decide

theorem reWord_not_reSpace (c : Char) (h : reWord c = true) : reSpace c = false := by
  cases hs : reSpace c with
  | false => rfl
  | true => rw [reSpace_not_reWord c hs] at h; exact absurd h (by decide)

theorem reDash_not_reSpace (c : Char) (h : reDash c = true) : reSpace c = false := by
  simp only [reDash, decide_eq_true_eq] at h
  subst h
  decide

theorem reSpace_not_reDash (c : Char) (h : reSpace c = true) : reDash c = false := by
  cases hs : reDash c with
  | false => rfl
  | true => rw [reDash_not_reSpace c hs] at h; exact absurd h (by decide)

theorem reWord_not_reDash (c : Char) (h : reWord c = true) : reDash c = false := by
  cases hs : reDash c with
  | false => rfl
  | true =>
    simp only [reDash, decide_eq_true_eq] at hs
    subst hs
    exact absurd h (by decide)

/-- The tail `(.*)$` of the pattern matches exactly the texts without a newline. -/
theorem matchReps_any (s : GoString) :
    matchReps [⟨reAny, 0⟩] s = if s.dropWhile reAny = [] then some [s] else none := by
  simp only [matchReps]
  rw [tryFrom_eq]
  · rw [drop_length_takeWhile, take_length_takeWhile]
    by_cases h : s.dropWhile reAny = []
    · have h2 : s.takeWhile reAny = s := by
        have := List.takeWhile_append_dropWhile reAny s
        rw [h, List.append_nil] at this
        exact this
      simp [h, h2]
    · simp [h]
  · intro _ k _ hk
    obtain ⟨c, x, hx, _⟩ := drop_lt_length_takeWhile reAny s k hk
    simp [hx]

theorem matchReps_any_eq_none (s : GoString) :
    matchReps [⟨reAny, 0⟩] s = none ↔ ∃ c ∈ s, reAny c = false := by
  rw [matchReps_any]
  by_cases h : s.dropWhile reAny = []
  · simp only [h, if_true]
    rw [List.dropWhile_eq_nil_iff] at h
    constructor
    · intro h2; cases h2
    · rintro ⟨c, hc, hf⟩
      rw [h c hc] at hf
      cases hf
  · simp only [h, if_false, true_iff]
    rw [List.dropWhile_eq_nil_iff] at h
    push_neg at h
    obtain ⟨c, hc, hf⟩ := h
    exact ⟨c, hc, by simpa using hf⟩

/-- The tail `\s*(.*)$`: the whitespace run is taken whole. -/
theorem matchReps_space_any (s : GoString) :
    matchReps [⟨reSpace, 0⟩, ⟨reAny, 0⟩] s =
      (matchReps [⟨reAny, 0⟩] (s.dropWhile reSpace)).map
        (fun gs => s.takeWhile reSpace :: gs) := by
  rw [matchReps, tryFrom_eq]
  · simp [drop_length_takeWhile, take_length_takeWhile]
  · intro hn k _ hk
    rw [matchReps_any_eq_none] at hn ⊢
    obtain ⟨c, hc, hf⟩ := hn
    exact ⟨c, mem_drop_of_le s k _ (Nat.le_of_lt hk) c hc, hf⟩

theorem matchReps_space_any_eq_none (s : GoString) :
    matchReps [⟨reSpace, 0⟩, ⟨reAny, 0⟩] s = none ↔
      ∃ c ∈ s.dropWhile reSpace, reAny c = false := by
  rw [matchReps_space_any, Option.map_eq_none', matchReps_any_eq_none]

/-- The tail `(\w+)\s*(.*)$`: the word run is taken whole. -/
theorem matchReps_word (s : GoString) :
    matchReps [⟨reWord, 1⟩, ⟨reSpace, 0⟩, ⟨reAny, 0⟩] s =
      if 1 ≤ (s.takeWhile reWord).length then
        (matchReps [⟨reSpace, 0⟩, ⟨reAny, 0⟩] (s.dropWhile reWord)).map
          (fun gs => s.takeWhile reWord :: gs)
      else none := by
  rw [matchReps, tryFrom_eq]
  · simp [drop_length_takeWhile, take_length_takeWhile]
  · intro hn k _ hk
    rw [matchReps_space_any_eq_none] at hn ⊢
    obtain ⟨c, hc, hf⟩ := hn
    have hc1 : c ∈ s.drop (s.takeWhile reWord).length :=
      (List.dropWhile_suffix reSpace).subset hc
    have hc2 := mem_drop_of_le s k _ (Nat.le_of_lt hk) c hc1
    obtain ⟨a, x, hx, ha⟩ := drop_lt_length_takeWhile reWord s k hk
    refine ⟨c, ?_, hf⟩
    rw [hx] at hc2 ⊢
    rw [List.dropWhile_cons_of_neg (by simp [reWord_not_reSpace a ha])]
    exact hc2

/-- The tail `\s+(\w+)\s*(.*)$`: the whitespace run is taken whole. -/
theorem matchReps_space_word (s : GoString) :
    matchReps [⟨reSpace, 1⟩, ⟨reWord, 1⟩, ⟨reSpace, 0⟩, ⟨reAny, 0⟩] s =
      if 1 ≤ (s.takeWhile reSpace).length then
        (matchReps [⟨reWord, 1⟩, ⟨reSpace, 0⟩, ⟨reAny, 0⟩] (s.dropWhile reSpace)).map
          (fun gs => s.takeWhile reSpace :: gs)
      else none := by
  rw [matchReps, tryFrom_eq]
  · simp [drop_length_takeWhile, take_length_takeWhile]
  · intro _ k _ hk
    obtain ⟨a, x, hx, ha⟩ := drop_lt_length_takeWhile reSpace s k hk
    rw [matchReps_word, hx, List.takeWhile_cons_of_neg (by simp [reSpace_not_reWord a ha])]
    simp

/-- The whole pattern: the dash run is taken whole. -/
theorem matchReps_lineRE (s : GoString) :
    matchReps lineRE s =
      if 1 ≤ (s.takeWhile reDash).length then
        (matchReps [⟨reSpace, 1⟩, ⟨reWord, 1⟩, ⟨reSpace, 0⟩, ⟨reAny, 0⟩]
          (s.dropWhile reDash)).map (fun gs => s.takeWhile reDash :: gs)
      else none := by
  rw [lineRE, matchReps, tryFrom_eq]
  · simp [drop_length_takeWhile, take_length_takeWhile]
  · intro _ k _ hk
    obtain ⟨a, x, hx, ha⟩ := drop_lt_length_takeWhile reDash s k hk
    rw [matchReps_space_word, hx, List.takeWhile_cons_of_neg (by simp [reDash_not_reSpace a ha])]
    simp

theorem one_le_length_iff (l : GoString) : 1 ≤ l.length ↔ l ≠ [] := by
  cases l <;> simp

theorem FindStringSubmatch_eq (s : GoString) : FindStringSubmatch s = lineFields s := by
  unfold FindStringSubmatch lineFields
  rw [matchReps_lineRE, matchReps_space_word, matchReps_word, matchReps_space_any,
    matchReps_any]
  simp only [one_le_length_iff]
  by_cases h1 : s.takeWhile reDash ≠ []
  · by_cases h2 : (s.dropWhile reDash).takeWhile reSpace ≠ []
    · by_cases h3 : ((s.dropWhile reDash).dropWhile reSpace).takeWhile reWord ≠ []
      · by_cases h4 : ((((s.dropWhile reDash).dropWhile reSpace).dropWhile reWord).dropWhile
            reSpace).dropWhile reAny = []
        · simp [h1, h2, h3, h4]
        · simp [h1, h2, h3, h4]
      · simp [h1, h2, h3]
    · simp [h1, h2]
  · simp [h1]

theorem ParseLine_eq (s : GoString) :
    ParseLine s =
      match lineFields s with
      | none => (⟨[], []⟩, some (Error.ParseLineFailed s))
      | some (tag, value) => (⟨tag, value⟩, none) := by
  unfold ParseLine
  rw [FindStringSubmatch_eq]


/-! ## The line pattern -/

theorem head?_dropWhile_stop (p : Char → Bool) (l : GoString) (c : Char)
    (h : (l.dropWhile p).head? = some c) : p c = false := by
  induction l with
  | nil => simp at h
  | cons a l ih =>
    by_cases ha : p a = true
    · rw [List.dropWhile_cons_of_pos ha] at h
      exact ih h
    · rw [List.dropWhile_cons_of_neg ha] at h
      simp at h
      subst h
      simpa using ha

theorem head?_append_of_ne_nil (a b : GoString) (h : a ≠ []) : (a ++ b).head? = a.head? := by
  cases a with
  | nil => exact absurd rfl h
  | cons x a => rfl

theorem mem_of_head? (a : GoString) (c : Char) (h : a.head? = some c) : c ∈ a := by
  cases a with
  | nil => simp at h
  | cons x a =>
    simp at h
    subst h
    exact List.mem_cons_self _ _

theorem dropWhile_eq_nil_of_all (p : Char → Bool) (l : GoString) (h : ∀ c ∈ l, p c = true) :
    l.dropWhile p = [] := by
  rw [List.dropWhile_eq_nil_iff]
  exact h

/-- The fields of a line written as dashes, whitespace, tag, whitespace, value, when each
run ends where the next begins. -/
theorem lineFields_append (d w t w2 v : GoString)
    (hd : d ≠ []) (hd' : ∀ c ∈ d, reDash c = true)
    (hw : w ≠ []) (hw' : ∀ c ∈ w, reSpace c = true)
    (ht : t ≠ []) (ht' : ∀ c ∈ t, reWord c = true)
    (hw2 : ∀ c ∈ w2, reSpace c = true)
    (hstop : ∀ c, (w2 ++ v).head? = some c → reWord c = false)
    (hv0 : ∀ c, v.head? = some c → reSpace c = false)
    (hv : ∀ c ∈ v, reAny c = true) :
    lineFields (d ++ (w ++ (t ++ (w2 ++ v)))) = some (t, v) := by
  have e1 : (d ++ (w ++ (t ++ (w2 ++ v)))).takeWhile reDash = d :=
    takeWhile_append_stop reDash d _ hd' (by
      intro c hc
      rw [head?_append_of_ne_nil _ _ hw] at hc
      exact reSpace_not_reDash c (hw' c (mem_of_head? w c hc)))
  have e2 : (d ++ (w ++ (t ++ (w2 ++ v)))).dropWhile reDash = w ++ (t ++ (w2 ++ v)) :=
    dropWhile_append_stop reDash d _ hd' (by
      intro c hc
      rw [head?_append_of_ne_nil _ _ hw] at hc
      exact reSpace_not_reDash c (hw' c (mem_of_head? w c hc)))
  have hst : ∀ c, (t ++ (w2 ++ v)).head? = some c → reSpace c = false := by
    intro c hc
    rw [head?_append_of_ne_nil _ _ ht] at hc
    exact reWord_not_reSpace c (ht' c (mem_of_head? t c hc))
  have e3 : (w ++ (t ++ (w2 ++ v))).takeWhile reSpace = w :=
    takeWhile_append_stop reSpace w _ hw' hst
  have e4 : (w ++ (t ++ (w2 ++ v))).dropWhile reSpace = t ++ (w2 ++ v) :=
    dropWhile_append_stop reSpace w _ hw' hst
  have e5 : (t ++ (w2 ++ v)).takeWhile reWord = t := takeWhile_append_stop reWord t _ ht' hstop
  have e6 : (t ++ (w2 ++ v)).dropWhile reWord = w2 ++ v :=
    dropWhile_append_stop reWord t _ ht' hstop
  have e7 : (w2 ++ v).dropWhile reSpace = v := dropWhile_append_stop reSpace w2 _ hw2 hv0
  have e8 : v.dropWhile reAny = [] := dropWhile_eq_nil_of_all reAny v hv
  simp only [lineFields, e1, e2, e3, e4, e5, e6, e7, e8]
  simp [hd, hw, ht]

/-- What a successful match says about the line and its two fields. -/
theorem lineFields_some (s tag value : GoString) (h : lineFields s = some (tag, value)) :
    tag ≠ [] ∧ (∀ c ∈ tag, reWord c = true) ∧ (∀ c ∈ value, reAny c = true)
      ∧ (∀ c, value.head? = some c → reSpace c = false)
      ∧ ∃ d w w2, d ≠ [] ∧ (∀ c ∈ d, reDash c = true) ∧ w ≠ [] ∧ (∀ c ∈ w, reSpace c = true)
          ∧ (∀ c ∈ w2, reSpace c = true) ∧ s = d ++ (w ++ (tag ++ (w2 ++ value))) := by
  unfold lineFields at h
  simp only at h
  split at h
  · rename_i hc
    obtain ⟨h1, h2, h3, h4⟩ := hc
    simp only [Option.some.injEq, Prod.mk.injEq] at h
    obtain ⟨ht, hv⟩ := h
    subst ht
    subst hv
    refine ⟨h3, fun c hc => List.mem_takeWhile_imp hc, ?_, ?_, ?_⟩
    · exact List.dropWhile_eq_nil_iff.mp h4
    · exact fun c hc => head?_dropWhile_stop reSpace _ c hc
    · refine ⟨s.takeWhile reDash, (s.dropWhile reDash).takeWhile reSpace,
        (((s.dropWhile reDash).dropWhile reSpace).dropWhile reWord).takeWhile reSpace,
        h1, fun c hc => List.mem_takeWhile_imp hc, h2, fun c hc => List.mem_takeWhile_imp hc,
        fun c hc => List.mem_takeWhile_imp hc, ?_⟩
      simp only [List.takeWhile_append_dropWhile]
  · cases h

/-- A line starts like a content line when it opens with dashes, whitespace and a word
character, which is when the first three runs of the pattern are all non-empty. -/
theorem lineShape_iff (s : GoString) :
    (∃ d w c rest, d ≠ [] ∧ (∀ x ∈ d, x = '-') ∧ w ≠ [] ∧ (∀ x ∈ w, reSpace x = true)
        ∧ reWord c = true ∧ s = d ++ (w ++ c :: rest)) ↔
      (s.takeWhile reDash ≠ [] ∧ (s.dropWhile reDash).takeWhile reSpace ≠ []
        ∧ ((s.dropWhile reDash).dropWhile reSpace).takeWhile reWord ≠ []) := by
  constructor
  · rintro ⟨d, w, c, rest, hd, hd', hw, hw', hc, rfl⟩
    have hd'' : ∀ x ∈ d, reDash x = true := fun x hx => by simp [reDash, hd' x hx]
    have hstop : ∀ x, (w ++ c :: rest).head? = some x → reDash x = false := by
      intro x hx
      rw [head?_append_of_ne_nil _ _ hw] at hx
      exact reSpace_not_reDash x (hw' x (mem_of_head? w x hx))
    have hstop2 : ∀ x, (c :: rest).head? = some x → reSpace x = false := by
      intro x hx
      simp at hx
      subst hx
      exact reWord_not_reSpace _ hc
    rw [takeWhile_append_stop reDash d _ hd'' hstop, dropWhile_append_stop reDash d _ hd'' hstop,
      takeWhile_append_stop reSpace w _ hw' hstop2, dropWhile_append_stop reSpace w _ hw' hstop2,
      List.takeWhile_cons_of_pos hc]
    exact ⟨hd, hw, by simp⟩
  · rintro ⟨h1, h2, h3⟩
    cases ht : ((s.dropWhile reDash).dropWhile reSpace).takeWhile reWord with
    | nil => exact absurd ht h3
    | cons c t =>
      have hc : reWord c = true :=
        List.mem_takeWhile_imp (p := reWord)
          (l := (s.dropWhile reDash).dropWhile reSpace) (by rw [ht]; exact List.mem_cons_self _ _)
      refine ⟨s.takeWhile reDash, (s.dropWhile reDash).takeWhile reSpace, c,
        t ++ ((s.dropWhile reDash).dropWhile reSpace).dropWhile reWord, h1, ?_, h2,
        fun x hx => List.mem_takeWhile_imp hx, hc, ?_⟩
      · intro x hx
        simpa [reDash] using List.mem_takeWhile_imp hx
      · have := List.takeWhile_append_dropWhile reWord ((s.dropWhile reDash).dropWhile reSpace)
        rw [ht] at this
        rw [← List.cons_append, this]
        simp only [List.takeWhile_append_dropWhile]

/-! ## `strconv.ParseUint` -/

theorem le_foldl_digits (cs : GoString) (n : Nat) :
    n ≤ cs.foldl (fun n c => n * 10 + (c.toNat - '0'.toNat)) n := by
  induction cs generalizing n with
  | nil => exact Nat.le_refl _
  | cons c cs ih =>
    simp only [List.foldl_cons]
    exact Nat.le_trans (by omega) (ih _)

theorem ParseUintLoop_digits (s0 cs : GoString) (n : Nat)
    (hdig : ∀ c ∈ cs, isDigit c = true)
    (hlt : cs.foldl (fun n c => n * 10 + (c.toNat - '0'.toNat)) n < 2 ^ 64) :
    ParseUintLoop s0 n cs = (cs.foldl (fun n c => n * 10 + (c.toNat - '0'.toNat)) n, none) := by
  induction cs generalizing n with
  | nil => rfl
  | cons c cs ih =>
    have hc : isDigit c = true := hdig c (List.mem_cons_self _ _)
    simp only [List.foldl_cons] at hlt ⊢
    have hle := le_foldl_digits cs (n * 10 + (c.toNat - '0'.toNat))
    have hn : n * 10 + (c.toNat - '0'.toNat) < 2 ^ 64 := Nat.lt_of_le_of_lt hle hlt
    have h10 : n * 10 < 2 ^ 64 := by omega
    have hcut : ¬ (n ≥ maxUint64 / 10 + 1) := by
      simp only [maxUint64]
      norm_num at hn ⊢
      omega
    have hwrap : ¬ ((n * 10 % 2 ^ 64 + (c.toNat - '0'.toNat)) % 2 ^ 64 < n * 10 % 2 ^ 64
        ∨ (n * 10 % 2 ^ 64 + (c.toNat - '0'.toNat)) % 2 ^ 64 > maxUint64) := by
      rw [Nat.mod_eq_of_lt h10, Nat.mod_eq_of_lt hn]
      simp only [maxUint64]
      omega
    rw [ParseUintLoop]
    simp only [hc, if_true, hcut, if_false, hwrap]
    rw [Nat.mod_eq_of_lt h10, Nat.mod_eq_of_lt hn]
    exact ih _ (fun x hx => hdig x (List.mem_cons_of_mem _ hx)) hlt

/-- A non-empty string of digits whose value fits 64 bits parses to that value. -/
theorem ParseUint_digits (s : GoString) (hne : s ≠ []) (hdig : ∀ c ∈ s, isDigit c = true)
    (hlt : decimalValue s < 2 ^ 64) : ParseUint s = (decimalValue s, none) := by
  unfold ParseUint
  simp only [hne, if_false]
  exact ParseUintLoop_digits s s 0 hdig hlt

/-- Every error of the loop is a `NumError` for the whole string. -/
theorem ParseUintLoop_error (s0 cs : GoString) (n : Nat) :
    (ParseUintLoop s0 n cs).2 = none ∨ ∃ e, (ParseUintLoop s0 n cs).2 = some (Error.NumError s0 e) := by
  induction cs generalizing n with
  | nil => exact Or.inl rfl
  | cons c cs ih =>
    rw [ParseUintLoop]
    dsimp only
    split_ifs
    · exact Or.inr ⟨_, rfl⟩
    · exact Or.inr ⟨_, rfl⟩
    · exact ih _
    · exact Or.inr ⟨_, rfl⟩

/-- A character that is not a digit makes the loop fail. -/
theorem ParseUintLoop_nondigit (s0 cs : GoString) (n : Nat)
    (h : ∃ c ∈ cs, isDigit c = false) : (ParseUintLoop s0 n cs).2 ≠ none := by
  induction cs generalizing n with
  | nil => simp at h
  | cons c cs ih =>
    rw [ParseUintLoop]
    dsimp only
    split_ifs with hc h1 h2
    · exact Option.some_ne_none _
    · exact Option.some_ne_none _
    · apply ih
      obtain ⟨x, hx, hxd⟩ := h
      rcases List.mem_cons.mp hx with rfl | hx
      · rw [hc] at hxd
        cases hxd
      · exact ⟨x, hx, hxd⟩
    · exact Option.some_ne_none _

/-- A string that is not a non-empty string of digits does not parse. -/
theorem ParseUint_bad (s : GoString) (h : ¬ (s ≠ [] ∧ ∀ c ∈ s, isDigit c = true)) :
    ∃ v e, ParseUint s = (v, some (Error.NumError s e)) := by
  unfold ParseUint
  by_cases hs : s = []
  · simp only [hs, if_true]
    exact ⟨_, _, rfl⟩
  · simp only [hs, if_false]
    have hnd : ∃ c ∈ s, isDigit c = false := by
      by_contra hcon
      push_neg at hcon
      exact h ⟨hs, fun c hc => by simpa using hcon c hc⟩
    have h1 := ParseUintLoop_nondigit s s 0 hnd
    rcases ParseUintLoop_error s s 0 with h2 | ⟨e, h2⟩
    · exact absurd h2 h1
    · exact ⟨(ParseUintLoop s 0 s).1, e, Prod.ext rfl h2⟩

theorem toUint_of_lt (v : Nat) (h : v < 2 ^ 64) : toUint v = v := by
  unfold toUint uintSize
  exact Nat.mod_eq_of_lt h

/-! ## `strings.Split` -/

theorem Split_ne_nil (sep : Char) (s : GoString) : Split sep s ≠ [] := by
  induction s with
  | nil => simp [Split]
  | cons c cs ih =>
    rw [Split]
    split_ifs
    · simp
    · split <;> simp

theorem Split_of_not_mem (sep : Char) (a : GoString) (h : sep ∉ a) : Split sep a = [a] := by
  induction a with
  | nil => rfl
  | cons c cs ih =>
    have hc : ¬ c = sep := fun e => h (e ▸ List.mem_cons_self _ _)
    have := ih (fun hm => h (List.mem_cons_of_mem _ hm))
    rw [Split]
    simp only [hc, if_false, this]

theorem Split_append (sep : Char) (a b : GoString) (h : sep ∉ a) :
    Split sep (a ++ sep :: b) = a :: Split sep b := by
  induction a with
  | nil => simp [Split]
  | cons c cs ih =>
    have hc : ¬ c = sep := fun e => h (e ▸ List.mem_cons_self _ _)
    have := ih (fun hm => h (List.mem_cons_of_mem _ hm))
    rw [List.cons_append, Split]
    simp only [hc, if_false, this]

theorem Split_length (sep : Char) (s : GoString) :
    (Split sep s).length = s.count sep + 1 := by
  induction s with
  | nil => rfl
  | cons c cs ih =>
    rw [Split]
    by_cases hc : c = sep
    · subst hc
      simp [ih]
    · simp only [hc, if_false]
      have hcnt : (c :: cs).count sep = cs.count sep := by
        rw [List.count_cons]
        simp [hc]
      rw [hcnt, ← ih]
      split
      · rename_i he
        exact absurd he (Split_ne_nil sep cs)
      · rename_i p ps he
        simp [he]

theorem isDigit_ne_space (c : Char) (h : isDigit c = true) : c ≠ ' ' := by
  rintro rfl
  exact absurd h (by decide)

theorem getLastD_Split_append (a b : GoString) (h : ' ' ∉ b) :
    (Split ' ' (a ++ ' ' :: b)).getLastD [] = b := by
  induction a with
  | nil =>
    have e := Split_append ' ' [] b (by simp)
    simp only [List.nil_append] at e ⊢
    rw [e, Split_of_not_mem ' ' b h]
    rfl
  | cons c cs ih =>
    rw [List.cons_append, Split]
    split_ifs with hc
    · cases hsp : Split ' ' (cs ++ ' ' :: b) with
      | nil => exact absurd hsp (Split_ne_nil _ _)
      | cons p ps =>
        rw [hsp] at ih
        simpa [List.getLastD_cons] using ih
    · cases hsp : Split ' ' (cs ++ ' ' :: b) with
      | nil => exact absurd hsp (Split_ne_nil _ _)
      | cons p ps =>
        rw [hsp] at ih
        cases ps with
        | nil =>
          exfalso
          have hl := Split_length ' ' (cs ++ ' ' :: b)
          rw [hsp] at hl
          simp at hl
        | cons q qs =>
          simpa [List.getLastD_cons] using ih

/-! ## The transaction reader, one line at a time -/

theorem ParseLine_ok (s : GoString) (h : (ParseLine s).2 = none) :
    lineFields s = some ((ParseLine s).1.Tag, (ParseLine s).1.Value) := by
  rw [ParseLine_eq] at h ⊢
  cases hf : lineFields s with
  | none =>
    rw [hf] at h
    cases h
  | some tv => rfl

theorem ParseLine_ok_cons (s : GoString) (h : (ParseLine s).2 = none) :
    ∃ rest, s = '-' :: rest := by
  obtain ⟨_, _, _, _, d, w, w2, hd, hd', _, _, _, hs⟩ := lineFields_some s _ _ (ParseLine_ok s h)
  cases d with
  | nil => exact absurd rfl hd
  | cons c d =>
    have hc : c = '-' := by simpa [reDash] using hd' c (List.mem_cons_self _ _)
    subst hc
    exact ⟨_, hs⟩

theorem ParseLine_ok_not_blank (s : GoString) (h : (ParseLine s).2 = none) :
    s ≠ [] ∧ HasPrefix s '*' = false := by
  obtain ⟨rest, rfl⟩ := ParseLine_ok_cons s h
  exact ⟨by simp, by simp [HasPrefix]⟩

theorem loop_blank (t : Transaction) (raw : GoString) (rest : List GoString)
    (h : TrimSpace raw = []) :
    ParseTransactionLoop t (raw :: rest) = ParseTransactionLoop t rest := by
  rw [ParseTransactionLoop]
  simp only [h, if_true]

theorem HasPrefix_ne_nil (s : GoString) (c : Char) (h : HasPrefix s c = true) : s ≠ [] := by
  rintro rfl
  simp [HasPrefix] at h

theorem loop_boundary (t : Transaction) (raw : GoString) (rest : List GoString)
    (h1 : HasPrefix (TrimSpace raw) '*' = true)
    (h2 : (ParseUint ((Split ' ' (TrimSpace raw)).getLastD [])).2 = none) :
    ParseTransactionLoop t (raw :: rest) =
      ParseTransactionLoop
        { t with VXID := toUint (ParseUint ((Split ' ' (TrimSpace raw)).getLastD [])).1 }
        rest := by
  have hne := HasPrefix_ne_nil _ _ h1
  have hp : ParseUint ((Split ' ' (TrimSpace raw)).getLastD [])
      = ((ParseUint ((Split ' ' (TrimSpace raw)).getLastD [])).1, none) := Prod.ext rfl h2
  rw [ParseTransactionLoop]
  simp only [hne, if_false, h1, if_true]
  rw [hp]

theorem loop_boundary_error (t : Transaction) (raw : GoString) (rest : List GoString)
    (h1 : HasPrefix (TrimSpace raw) '*' = true) (err : Error)
    (h2 : (ParseUint ((Split ' ' (TrimSpace raw)).getLastD [])).2 = some err) :
    ParseTransactionLoop t (raw :: rest) = ((t, some err), rest) := by
  have hne := HasPrefix_ne_nil _ _ h1
  have hp : ParseUint ((Split ' ' (TrimSpace raw)).getLastD [])
      = ((ParseUint ((Split ' ' (TrimSpace raw)).getLastD [])).1, some err) := Prod.ext rfl h2
  rw [ParseTransactionLoop]
  simp only [hne, if_false, h1, if_true]
  rw [hp]

theorem loop_line (t : Transaction) (raw : GoString) (rest : List GoString)
    (h : (ParseLine (TrimSpace raw)).2 = none)
    (hB : (ParseLine (TrimSpace raw)).1.Tag ≠ "Begin".toList)
    (hE : (ParseLine (TrimSpace raw)).1.Tag ≠ "End".toList) :
    ParseTransactionLoop t (raw :: rest) =
      ParseTransactionLoop { t with Lines := t.Lines ++ [(ParseLine (TrimSpace raw)).1] }
        rest := by
  obtain ⟨hne, hpre⟩ := ParseLine_ok_not_blank _ h
  have hp : ParseLine (TrimSpace raw) = ((ParseLine (TrimSpace raw)).1, none) := Prod.ext rfl h
  rw [ParseTransactionLoop]
  simp only [hne, if_false, hpre, Bool.false_eq_true]
  rw [hp]
  simp only [hB, hE, if_false]

theorem loop_begin (t : Transaction) (raw : GoString) (rest : List GoString)
    (h : (ParseLine (TrimSpace raw)).2 = none)
    (hB : (ParseLine (TrimSpace raw)).1.Tag = "Begin".toList)
    (hR : (ParseReference (ParseLine (TrimSpace raw)).1.Value).2 = none) :
    ParseTransactionLoop t (raw :: rest) =
      ParseTransactionLoop
        { t with
          Lines := t.Lines ++ [(ParseLine (TrimSpace raw)).1]
          Begin := (ParseReference (ParseLine (TrimSpace raw)).1.Value).1 }
        rest := by
  obtain ⟨hne, hpre⟩ := ParseLine_ok_not_blank _ h
  have hp : ParseLine (TrimSpace raw) = ((ParseLine (TrimSpace raw)).1, none) := Prod.ext rfl h
  have hr : ParseReference (ParseLine (TrimSpace raw)).1.Value
      = ((ParseReference (ParseLine (TrimSpace raw)).1.Value).1, none) := Prod.ext rfl hR
  rw [ParseTransactionLoop]
  simp only [hne, if_false, hpre, Bool.false_eq_true]
  rw [hp]
  simp only [hB, if_true]
  rw [hr]

theorem loop_end (t : Transaction) (raw : GoString) (rest : List GoString) (h : Ends raw) :
    ParseTransactionLoop t (raw :: rest) =
      (({ t with Lines := t.Lines ++ [(ParseLine (TrimSpace raw)).1] }, none), rest) := by
  obtain ⟨h, hE⟩ := h
  obtain ⟨hne, hpre⟩ := ParseLine_ok_not_blank _ h
  have hp : ParseLine (TrimSpace raw) = ((ParseLine (TrimSpace raw)).1, none) := Prod.ext rfl h
  have hB : (ParseLine (TrimSpace raw)).1.Tag ≠ "Begin".toList := by
    rw [hE]
    decide
  rw [ParseTransactionLoop]
  simp only [hne, if_false, hpre, Bool.false_eq_true]
  rw [hp]
  simp only [hE, if_true]
  rw [if_neg (by decide)]

/-! ## The transaction reader over a run of lines -/

theorem HasPrefix_nil (c : Char) : HasPrefix [] c = false := rfl

theorem boundaryIds_cons_boundary (raw : GoString) (pre : List GoString)
    (hp : HasPrefix (TrimSpace raw) '*' = true) :
    boundaryIds (raw :: pre) =
      toUint (ParseUint ((Split ' ' (TrimSpace raw)).getLastD [])).1 :: boundaryIds pre := by
  unfold boundaryIds
  rw [List.filterMap_cons]
  simp only [hp, if_true]

theorem boundaryIds_cons_other (raw : GoString) (pre : List GoString)
    (hp : HasPrefix (TrimSpace raw) '*' = false) :
    boundaryIds (raw :: pre) = boundaryIds pre := by
  unfold boundaryIds
  rw [List.filterMap_cons]
  simp only [hp, Bool.false_eq_true, if_false]

theorem contentLines_cons_skip (raw : GoString) (pre : List GoString)
    (h : TrimSpace raw = [] ∨ HasPrefix (TrimSpace raw) '*' = true) :
    contentLines (raw :: pre) = contentLines pre := by
  unfold contentLines
  rw [List.filterMap_cons]
  simp only [h, if_true]

theorem contentLines_cons_line (raw : GoString) (pre : List GoString)
    (hne : TrimSpace raw ≠ []) (hp : HasPrefix (TrimSpace raw) '*' = false) :
    contentLines (raw :: pre) = (ParseLine (TrimSpace raw)).1 :: contentLines pre := by
  unfold contentLines
  rw [List.filterMap_cons]
  simp only [hne, hp, Bool.false_eq_true, or_self, if_false]

theorem beginRefs_cons_begin (l : Line) (ls : List Line) (h : l.Tag = "Begin".toList) :
    beginRefs (l :: ls) = (ParseReference l.Value).1 :: beginRefs ls := by
  unfold beginRefs
  rw [List.filter_cons_of_pos (by simpa using h), List.map_cons]

theorem beginRefs_cons_other (l : Line) (ls : List Line) (h : l.Tag ≠ "Begin".toList) :
    beginRefs (l :: ls) = beginRefs ls := by
  unfold beginRefs
  rw [List.filter_cons_of_neg (by simpa using h)]

/-- Reading lines that neither fail nor end the transaction: the identifier becomes that
of the last boundary line, `Begin` that of the last `Begin` line, and the content lines
are appended in order. -/
theorem loop_run (pre rest : List GoString) (t : Transaction)
    (h : ∀ raw ∈ pre, Continues raw) :
    ParseTransactionLoop t (pre ++ rest) =
      ParseTransactionLoop
        ⟨(boundaryIds pre).getLastD t.VXID,
          (beginRefs (contentLines pre)).getLastD t.Begin,
          t.Lines ++ contentLines pre⟩ rest := by
  induction pre generalizing t with
  | nil =>
    simp only [boundaryIds, contentLines, beginRefs, List.filterMap_nil, List.filter_nil,
      List.map_nil, List.getLastD_nil, List.append_nil, List.nil_append]
  | cons raw pre ih =>
    have ih' := fun t => ih t (fun r hr => h r (List.mem_cons_of_mem _ hr))
    rw [List.cons_append]
    rcases h raw (List.mem_cons_self _ _) with hb | ⟨hp, hu⟩ | ⟨hl, hE, hR⟩
    · rw [loop_blank t raw _ hb, ih', contentLines_cons_skip raw pre (Or.inl hb),
        boundaryIds_cons_other raw pre (by rw [hb]; rfl)]
    · rw [loop_boundary t raw _ hp hu, ih', contentLines_cons_skip raw pre (Or.inr hp),
        boundaryIds_cons_boundary raw pre hp, List.getLastD_cons]
    · obtain ⟨hne, hpre⟩ := ParseLine_ok_not_blank _ hl
      by_cases hB : (ParseLine (TrimSpace raw)).1.Tag = "Begin".toList
      · rw [loop_begin t raw _ hl hB (hR hB), ih', contentLines_cons_line raw pre hne hpre,
          boundaryIds_cons_other raw pre hpre, beginRefs_cons_begin _ _ hB, List.getLastD_cons,
          List.append_assoc, List.singleton_append]
      · rw [loop_line t raw _ hl hB hE, ih', contentLines_cons_line raw pre hne hpre,
          boundaryIds_cons_other raw pre hpre, beginRefs_cons_other _ _ hB,
          List.append_assoc, List.singleton_append]

theorem beginRefs_append (a b : List Line) : beginRefs (a ++ b) = beginRefs a ++ beginRefs b := by
  simp [beginRefs]

theorem contentLines_append (a b : List GoString) :
    contentLines (a ++ b) = contentLines a ++ contentLines b := by
  simp [contentLines]

theorem boundaryIds_append (a b : List GoString) :
    boundaryIds (a ++ b) = boundaryIds a ++ boundaryIds b := by
  simp [boundaryIds]

/-- A complete block read from any state: the transaction is returned with no error at
its `End` line, and what follows the block is left unread. -/
theorem loop_block (pre rest : List GoString) (e : GoString) (t : Transaction)
    (h : ∀ raw ∈ pre, Continues raw) (he : Ends e) :
    ParseTransactionLoop t (pre ++ [e] ++ rest) =
      ((⟨(boundaryIds pre).getLastD t.VXID,
          (beginRefs (contentLines pre)).getLastD t.Begin,
          t.Lines ++ contentLines pre ++ [(ParseLine (TrimSpace e)).1]⟩, none), rest) := by
  rw [List.append_assoc, loop_run pre _ t h, List.singleton_append, loop_end _ e rest he]

/-! ## `strings.TrimSpace` -/

theorem isDigit_not_IsSpace (c : Char) (h : isDigit c = true) : IsSpace c = false := by
  simp only [isDigit, Bool.and_eq_true, decide_eq_true_eq] at h
  have h0 : '0'.toNat = 48 := rfl
  have h9 : '9'.toNat = 57 := rfl
  rw [h0, h9] at h
  unfold IsSpace
  have hle : c.toNat ≤ 0xFF := by omega
  simp only [hle, if_true]
  simp only [Bool.or_eq_false_iff, decide_eq_false_iff_not]
  omega

/-- Trimming leaves alone a string that neither starts nor ends with white space. -/
theorem TrimSpace_eq_self (a z : Char) (x : GoString)
    (ha : IsSpace a = false) (hz : IsSpace z = false) :
    TrimSpace (a :: (x ++ [z])) = a :: (x ++ [z]) := by
  unfold TrimSpace
  rw [List.dropWhile_cons_of_neg (by simp [ha])]
  have e : (a :: (x ++ [z])).reverse = z :: (a :: x).reverse := by
    rw [← List.cons_append, List.reverse_concat]
  rw [e, List.dropWhile_cons_of_neg (by simp [hz]), ← e, List.reverse_reverse]

theorem TrimSpace_boundary (m dstr : GoString) (hne : dstr ≠ [])
    (hdig : ∀ c ∈ dstr, isDigit c = true) :
    TrimSpace ('*' :: (m ++ ' ' :: dstr)) = '*' :: (m ++ ' ' :: dstr) := by
  have hd : dstr = dstr.dropLast ++ [dstr.getLast hne] := (List.dropLast_append_getLast hne).symm
  have hz : IsSpace (dstr.getLast hne) = false :=
    isDigit_not_IsSpace _ (hdig _ (List.getLast_mem hne))
  have e : m ++ ' ' :: dstr = (m ++ ' ' :: dstr.dropLast) ++ [dstr.getLast hne] := by
    conv_lhs => rw [hd]
    simp
  rw [e]
  exact TrimSpace_eq_self '*' _ _ (by decide) hz

/-- A boundary line `*`, anything, a space, then a decimal numeral below `2^64` is read
without error. -/
theorem boundary_ok (m dstr : GoString) (hne : dstr ≠ [])
    (hdig : ∀ c ∈ dstr, isDigit c = true) (hid : decimalValue dstr < 2 ^ 64) :
    HasPrefix (TrimSpace ('*' :: (m ++ ' ' :: dstr))) '*' = true
      ∧ ParseUint ((Split ' ' (TrimSpace ('*' :: (m ++ ' ' :: dstr)))).getLastD [])
          = (decimalValue dstr, none) := by
  have hds : ' ' ∉ dstr := fun hm => isDigit_ne_space ' ' (hdig ' ' hm) rfl
  rw [TrimSpace_boundary m dstr hne hdig]
  refine ⟨rfl, ?_⟩
  have := getLastD_Split_append ('*' :: m) dstr hds
  rw [List.cons_append] at this
  rw [this]
  exact ParseUint_digits dstr hne hdig hid

/-! ## Streams of content lines -/

theorem contentLines_of_parsed (cs : List GoString)
    (h : ∀ c ∈ cs, (ParseLine (TrimSpace c)).2 = none) :
    contentLines cs = cs.map (fun c => (ParseLine (TrimSpace c)).1) := by
  induction cs with
  | nil => rfl
  | cons c cs ih =>
    obtain ⟨hne, hp⟩ := ParseLine_ok_not_blank _ (h c (List.mem_cons_self _ _))
    rw [contentLines_cons_line c cs hne hp, ih (fun x hx => h x (List.mem_cons_of_mem _ hx)),
      List.map_cons]

theorem boundaryIds_of_parsed (cs : List GoString)
    (h : ∀ c ∈ cs, (ParseLine (TrimSpace c)).2 = none) : boundaryIds cs = [] := by
  induction cs with
  | nil => rfl
  | cons c cs ih =>
    obtain ⟨_, hp⟩ := ParseLine_ok_not_blank _ (h c (List.mem_cons_self _ _))
    rw [boundaryIds_cons_other c cs hp, ih (fun x hx => h x (List.mem_cons_of_mem _ hx))]

theorem getLastD_eq_headD (l : List Reference) (d : Reference) (h : l.length ≤ 1) :
    l.getLastD d = l.headD d := by
  cases l with
  | nil => rfl
  | cons a l =>
    cases l with
    | nil => rfl
    | cons b l => simp at h

/-! ## Lines that make the read fail -/

theorem ParseLine_boundary_fails (s : GoString) (h : HasPrefix s '*' = true) :
    (ParseLine s).2 ≠ none := by
  intro hn
  rw [(ParseLine_ok_not_blank s hn).2] at h
  cases h

theorem ParseLine_nil_fails : (ParseLine []).2 ≠ none := by decide

theorem loop_line_error (t : Transaction) (raw : GoString) (rest : List GoString)
    (hne : TrimSpace raw ≠ []) (hp : HasPrefix (TrimSpace raw) '*' = false) (err : Error)
    (h : (ParseLine (TrimSpace raw)).2 = some err) :
    ParseTransactionLoop t (raw :: rest) = ((t, some err), rest) := by
  have hpl : ParseLine (TrimSpace raw) = ((ParseLine (TrimSpace raw)).1, some err) :=
    Prod.ext rfl h
  rw [ParseTransactionLoop]
  simp only [hne, if_false, hp, Bool.false_eq_true]
  rw [hpl]

theorem loop_begin_error (t : Transaction) (raw : GoString) (rest : List GoString)
    (h : (ParseLine (TrimSpace raw)).2 = none)
    (hB : (ParseLine (TrimSpace raw)).1.Tag = "Begin".toList) (err : Error)
    (hR : (ParseReference (ParseLine (TrimSpace raw)).1.Value).2 = some err) :
    ParseTransactionLoop t (raw :: rest) =
      (({ t with Lines := t.Lines ++ [(ParseLine (TrimSpace raw)).1] }, some err), rest) := by
  obtain ⟨hne, hpre⟩ := ParseLine_ok_not_blank _ h
  have hp : ParseLine (TrimSpace raw) = ((ParseLine (TrimSpace raw)).1, none) := Prod.ext rfl h
  have hr : ParseReference (ParseLine (TrimSpace raw)).1.Value
      = ((ParseReference (ParseLine (TrimSpace raw)).1.Value).1, some err) := Prod.ext rfl hR
  rw [ParseTransactionLoop]
  simp only [hne, if_false, hpre, Bool.false_eq_true]
  rw [hp]
  simp only [hB, if_true]
  rw [hr]

theorem parsedLines_cons_ok (raw : GoString) (pre : List GoString)
    (h : (ParseLine (TrimSpace raw)).2 = none) :
    parsedLines (raw :: pre) = (ParseLine (TrimSpace raw)).1 :: parsedLines pre := by
  unfold parsedLines
  rw [List.filterMap_cons]
  simp only [h, if_true]

theorem parsedLines_cons_fail (raw : GoString) (pre : List GoString)
    (h : (ParseLine (TrimSpace raw)).2 ≠ none) :
    parsedLines (raw :: pre) = parsedLines pre := by
  unfold parsedLines
  rw [List.filterMap_cons]
  simp only [h, if_false]

theorem parsedLines_append (a b : List GoString) :
    parsedLines (a ++ b) = parsedLines a ++ parsedLines b := by
  unfold parsedLines
  rw [List.filterMap_append]

/-- A failing line ends the read with its error; the line is kept in `Lines` only when it
was parsed (a `Begin` line with a bad reference). -/
theorem loop_fail (t : Transaction) (raw : GoString) (rest : List GoString) (err : Error)
    (h : Fails raw err) :
    ParseTransactionLoop t (raw :: rest) =
      (({ t with Lines := t.Lines ++ parsedLines [raw] }, some err), rest) := by
  rcases h with ⟨hp, hu⟩ | ⟨hne, hp, hl⟩ | ⟨hl, hB, hR⟩
  · rw [loop_boundary_error t raw rest hp err hu,
      parsedLines_cons_fail raw [] (ParseLine_boundary_fails _ hp)]
    simp [parsedLines]
  · rw [loop_line_error t raw rest hne hp err hl,
      parsedLines_cons_fail raw [] (by rw [hl]; exact Option.some_ne_none _)]
    simp [parsedLines]
  · rw [loop_begin_error t raw rest hl hB err hR, parsedLines_cons_ok raw [] hl]
    rfl

/-- Every line lets the read go on, or ends it at an `End` tag, or makes it fail. -/
theorem line_cases (raw : GoString) : Continues raw ∨ Ends raw ∨ ∃ err, Fails raw err := by
  by_cases hb : TrimSpace raw = []
  · exact Or.inl (Or.inl hb)
  by_cases hp : HasPrefix (TrimSpace raw) '*' = true
  · cases hu : (ParseUint ((Split ' ' (TrimSpace raw)).getLastD [])).2 with
    | none => exact Or.inl (Or.inr (Or.inl ⟨hp, hu⟩))
    | some err => exact Or.inr (Or.inr ⟨err, Or.inl ⟨hp, hu⟩⟩)
  · have hp' : HasPrefix (TrimSpace raw) '*' = false := by simpa using hp
    cases hl : (ParseLine (TrimSpace raw)).2 with
    | some err => exact Or.inr (Or.inr ⟨err, Or.inr (Or.inl ⟨hb, hp', hl⟩)⟩)
    | none =>
      by_cases hE : (ParseLine (TrimSpace raw)).1.Tag = "End".toList
      · exact Or.inr (Or.inl ⟨hl, hE⟩)
      by_cases hB : (ParseLine (TrimSpace raw)).1.Tag = "Begin".toList
      · cases hR : (ParseReference (ParseLine (TrimSpace raw)).1.Value).2 with
        | none => exact Or.inl (Or.inr (Or.inr ⟨hl, hE, fun _ => hR⟩))
        | some err => exact Or.inr (Or.inr ⟨err, Or.inr (Or.inr ⟨hl, hB, hR⟩)⟩)
      · exact Or.inl (Or.inr (Or.inr ⟨hl, hE, fun h => absurd h hB⟩))

/-- Every stream is read to its end, or up to a first line that ends the read. -/
theorem stream_cases (s : List GoString) :
    (∀ raw ∈ s, Continues raw) ∨
      ∃ pre x rest, s = pre ++ x :: rest ∧ (∀ raw ∈ pre, Continues raw)
        ∧ (Ends x ∨ ∃ err, Fails x err) := by
  induction s with
  | nil => exact Or.inl (fun _ h => absurd h (List.not_mem_nil _))
  | cons a s ih =>
    rcases line_cases a with hc | hstop
    · rcases ih with hall | ⟨pre, x, rest, hs, hpre, hx⟩
      · left
        intro raw hraw
        rcases List.mem_cons.mp hraw with rfl | h
        · exact hc
        · exact hall raw h
      · right
        refine ⟨a :: pre, x, rest, by rw [hs, List.cons_append], ?_, hx⟩
        intro raw hraw
        rcases List.mem_cons.mp hraw with rfl | h
        · exact hc
        · exact hpre raw h
    · exact Or.inr ⟨[], a, s, rfl, fun _ h => absurd h (List.not_mem_nil _), hstop⟩

theorem ParseUint_error_ne_EOF (s : GoString) (err : Error) (h : (ParseUint s).2 = some err) :
    ∃ e, err = Error.NumError s e := by
  unfold ParseUint at h
  by_cases hs : s = []
  · subst hs
    simp only [if_true] at h
    exact ⟨_, (Option.some.inj h).symm⟩
  · simp only [hs, if_false] at h
    rcases ParseUintLoop_error s s 0 with h2 | ⟨e, h2⟩
    · rw [h2] at h
      cases h
    · rw [h2] at h
      exact ⟨e, (Option.some.inj h).symm⟩

theorem ParseReference_error (s : GoString) (err : Error)
    (h : (ParseReference s).2 = some err) :
    (ParseReference s).1 = ⟨[], 0, []⟩ ∧ err ≠ Error.EOF := by
  unfold ParseReference at h ⊢
  split at h
  · rename_i p0 p1 p2 hsp
    cases hu : (ParseUint p1).2 with
    | none =>
      have hp : ParseUint p1 = ((ParseUint p1).1, none) := Prod.ext rfl hu
      rw [hp] at h
      cases h
    | some e =>
      have hp : ParseUint p1 = ((ParseUint p1).1, some e) := Prod.ext rfl hu
      rw [hp] at h ⊢
      obtain ⟨k, hk⟩ := ParseUint_error_ne_EOF p1 e hu
      simp only [Option.some.injEq] at h
      subst h
      refine ⟨rfl, ?_⟩
      rw [hk]
      intro hc
      cases hc
  · rename_i hsp
    simp only [Option.some.injEq] at h
    subst h
    exact ⟨rfl, fun hc => by cases hc⟩

theorem ParseLine_error (s : GoString) (err : Error) (h : (ParseLine s).2 = some err) :
    err = Error.ParseLineFailed s := by
  rw [ParseLine_eq] at h
  cases hf : lineFields s with
  | none =>
    rw [hf] at h
    exact (Option.some.inj h).symm
  | some tv =>
    rw [hf] at h
    cases h

/-- A failing line never fails with `io.EOF`. -/
theorem Fails_ne_EOF (raw : GoString) (err : Error) (h : Fails raw err) : err ≠ Error.EOF := by
  rcases h with ⟨_, hu⟩ | ⟨_, _, hl⟩ | ⟨_, _, hR⟩
  · obtain ⟨e, he⟩ := ParseUint_error_ne_EOF _ err hu
    rw [he]
    intro hc
    cases hc
  · rw [ParseLine_error _ err hl]
    intro hc
    cases hc
  · exact (ParseReference_error _ err hR).2

theorem contentLines_eq_parsedLines (pre : List GoString) (h : ∀ raw ∈ pre, Continues raw) :
    contentLines pre = parsedLines pre := by
  induction pre with
  | nil => rfl
  | cons raw pre ih =>
    have ih' := ih (fun r hr => h r (List.mem_cons_of_mem _ hr))
    rcases h raw (List.mem_cons_self _ _) with hb | ⟨hp, _⟩ | ⟨hl, _, _⟩
    · rw [contentLines_cons_skip raw pre (Or.inl hb),
        parsedLines_cons_fail raw pre (by rw [hb]; exact ParseLine_nil_fails), ih']
    · rw [contentLines_cons_skip raw pre (Or.inr hp),
        parsedLines_cons_fail raw pre (ParseLine_boundary_fails _ hp), ih']
    · obtain ⟨hne, hpre⟩ := ParseLine_ok_not_blank _ hl
      rw [contentLines_cons_line raw pre hne hpre, parsedLines_cons_ok raw pre hl, ih']

/-- A read that meets a failing line after lines that let it go on: the error of that
line is returned with the transaction read so far, and what follows is left unread. -/
theorem loop_fail_at (pre rest : List GoString) (x : GoString) (t : Transaction) (err : Error)
    (h : ∀ raw ∈ pre, Continues raw) (hx : Fails x err) :
    ParseTransactionLoop t (pre ++ x :: rest) =
      ((⟨(boundaryIds pre).getLastD t.VXID,
          (beginRefs (contentLines pre)).getLastD t.Begin,
          t.Lines ++ contentLines pre ++ parsedLines [x]⟩, some err), rest) := by
  rw [loop_run pre _ t h, loop_fail _ x rest err hx]

/-- A read that reaches the end of the stream. -/
theorem loop_eof (s : List GoString) (t : Transaction) (h : ∀ raw ∈ s, Continues raw) :
    ParseTransactionLoop t s =
      ((⟨(boundaryIds s).getLastD t.VXID,
          (beginRefs (contentLines s)).getLastD t.Begin,
          t.Lines ++ contentLines s⟩, some Error.EOF), []) := by
  have hrun := loop_run s [] t h
  rw [List.append_nil] at hrun
  rw [hrun, ParseTransactionLoop]

theorem loop_block_cons (pre rest : List GoString) (e : GoString) (t : Transaction)
    (h : ∀ raw ∈ pre, Continues raw) (he : Ends e) :
    ParseTransactionLoop t (pre ++ e :: rest) =
      ((⟨(boundaryIds pre).getLastD t.VXID,
          (beginRefs (contentLines pre)).getLastD t.Begin,
          t.Lines ++ contentLines pre ++ [(ParseLine (TrimSpace e)).1]⟩, none), rest) := by
  rw [loop_run pre _ t h, loop_end _ e rest he]

theorem contentLines_of_blank (blanks : List GoString)
    (hb : ∀ raw ∈ blanks, TrimSpace raw = []) : contentLines blanks = [] := by
  induction blanks with
  | nil => rfl
  | cons a l ih =>
    rw [contentLines_cons_skip a l (Or.inl (hb a (List.mem_cons_self _ _)))]
    exact ih (fun r hr => hb r (List.mem_cons_of_mem _ hr))

theorem boundaryIds_of_blank (blanks : List GoString)
    (hb : ∀ raw ∈ blanks, TrimSpace raw = []) : boundaryIds blanks = [] := by
  induction blanks with
  | nil => rfl
  | cons a l ih =>
    rw [boundaryIds_cons_other a l (by rw [hb a (List.mem_cons_self _ _)]; rfl)]
    exact ih (fun r hr => hb r (List.mem_cons_of_mem _ hr))

/-! ## Boundary lines -/

/-- A trimmed line `*`, anything, a space, then a decimal numeral below `2^64` is a
boundary line with that identifier. -/
theorem boundary_line_ok (line m dstr : GoString) (hline : line = '*' :: (m ++ ' ' :: dstr))
    (hne : dstr ≠ []) (hdig : ∀ c ∈ dstr, isDigit c = true)
    (hid : decimalValue dstr < 2 ^ 64) :
    HasPrefix line '*' = true
      ∧ ParseUint ((Split ' ' line).getLastD []) = (decimalValue dstr, none) := by
  have hds : ' ' ∉ dstr := fun hm => isDigit_ne_space ' ' (hdig ' ' hm) rfl
  subst hline
  refine ⟨rfl, ?_⟩
  have := getLastD_Split_append ('*' :: m) dstr hds
  rw [List.cons_append] at this
  rw [this]
  exact ParseUint_digits dstr hne hdig hid

theorem boundaryIds_of_no_boundary (mid : List GoString)
    (h : ∀ raw ∈ mid, HasPrefix (TrimSpace raw) '*' = false) : boundaryIds mid = [] := by
  induction mid with
  | nil => rfl
  | cons a l ih =>
    rw [boundaryIds_cons_other a l (h a (List.mem_cons_self _ _))]
    exact ih (fun r hr => h r (List.mem_cons_of_mem _ hr))

theorem ContentLine_continues (raw : GoString) (h : ContentLine raw) : Continues raw :=
  Or.inr (Or.inr h)

theorem getLast?_eq_some_getLastD (l : List Reference) (d : Reference) (h : l ≠ []) :
    l.getLast? = some (l.getLastD d) := by
  rw [List.getLastD_eq_getLast?]
  cases hl : l.getLast? with
  | none => exact absurd (List.getLast?_eq_none_iff.mp hl) h
  | some a => rfl

theorem contentLines_of_content (cs : List GoString) (h : ∀ c ∈ cs, ContentLine c) :
    contentLines cs = cs.map (fun c => (ParseLine (TrimSpace c)).1) :=
  contentLines_of_parsed cs (fun c hc => (h c hc).1)

theorem boundaryIds_of_content (cs : List GoString) (h : ∀ c ∈ cs, ContentLine c) :
    boundaryIds cs = [] :=
  boundaryIds_of_parsed cs (fun c hc => (h c hc).1)

/-! ## Blank lines -/

theorem dropBlank_cons_blank (raw : GoString) (s : List GoString) (h : TrimSpace raw = []) :
    dropBlank (raw :: s) = dropBlank s := by
  unfold dropBlank
  rw [List.filter_cons_of_neg (by simp [h])]

theorem dropBlank_cons_line (raw : GoString) (s : List GoString) (h : TrimSpace raw ≠ []) :
    dropBlank (raw :: s) = raw :: dropBlank s := by
  unfold dropBlank
  rw [List.filter_cons_of_pos (by simp [h])]

theorem dropBlank_append (a b : List GoString) :
    dropBlank (a ++ b) = dropBlank a ++ dropBlank b := by
  unfold dropBlank
  rw [List.filter_append]

theorem dropBlank_idem (s : List GoString) : dropBlank (dropBlank s) = dropBlank s := by
  unfold dropBlank
  rw [List.filter_filter]
  simp

theorem mem_of_mem_dropBlank (s : List GoString) (raw : GoString) (h : raw ∈ dropBlank s) :
    raw ∈ s := by
  unfold dropBlank at h
  exact List.mem_of_mem_filter h

theorem boundaryIds_dropBlank (s : List GoString) : boundaryIds (dropBlank s) = boundaryIds s := by
  induction s with
  | nil => rfl
  | cons raw s ih =>
    by_cases hb : TrimSpace raw = []
    · rw [dropBlank_cons_blank raw s hb, ih,
        boundaryIds_cons_other raw s (by rw [hb]; rfl)]
    · rw [dropBlank_cons_line raw s hb]
      by_cases hp : HasPrefix (TrimSpace raw) '*' = true
      · rw [boundaryIds_cons_boundary raw _ hp, boundaryIds_cons_boundary raw _ hp, ih]
      · have hp' : HasPrefix (TrimSpace raw) '*' = false := by simpa using hp
        rw [boundaryIds_cons_other raw _ hp', boundaryIds_cons_other raw _ hp', ih]

theorem contentLines_dropBlank (s : List GoString) :
    contentLines (dropBlank s) = contentLines s := by
  induction s with
  | nil => rfl
  | cons raw s ih =>
    by_cases hb : TrimSpace raw = []
    · rw [dropBlank_cons_blank raw s hb, ih, contentLines_cons_skip raw s (Or.inl hb)]
    · rw [dropBlank_cons_line raw s hb]
      by_cases hp : HasPrefix (TrimSpace raw) '*' = true
      · rw [contentLines_cons_skip raw _ (Or.inr hp), contentLines_cons_skip raw _ (Or.inr hp),
          ih]
      · have hp' : HasPrefix (TrimSpace raw) '*' = false := by simpa using hp
        rw [contentLines_cons_line raw _ hb hp', contentLines_cons_line raw _ hb hp', ih]

theorem Ends_not_blank (x : GoString) (h : Ends x) : TrimSpace x ≠ [] :=
  (ParseLine_ok_not_blank _ h.1).1

theorem Fails_not_blank (x : GoString) (err : Error) (h : Fails x err) : TrimSpace x ≠ [] := by
  rcases h with ⟨hp, _⟩ | ⟨hne, _, _⟩ | ⟨hl, _, _⟩
  · exact HasPrefix_ne_nil _ _ hp
  · exact hne
  · exact (ParseLine_ok_not_blank _ hl).1

/-- The reader does the same, from any state, on a stream and on the stream without its
blank lines; the lines left unread differ by blank lines only. -/
theorem loop_dropBlank (s : List GoString) (t : Transaction) :
    (ParseTransactionLoop t s).1 = (ParseTransactionLoop t (dropBlank s)).1
      ∧ dropBlank (ParseTransactionLoop t s).2
          = dropBlank (ParseTransactionLoop t (dropBlank s)).2 := by
  rcases stream_cases s with hall | ⟨pre, x, rest, hs, hpre, hx⟩
  · have hall' : ∀ raw ∈ dropBlank s, Continues raw :=
      fun raw h => hall raw (mem_of_mem_dropBlank s raw h)
    rw [loop_eof s t hall, loop_eof (dropBlank s) t hall', boundaryIds_dropBlank,
      contentLines_dropBlank]
    exact ⟨rfl, rfl⟩
  · have hpre' : ∀ raw ∈ dropBlank pre, Continues raw :=
      fun raw h => hpre raw (mem_of_mem_dropBlank pre raw h)
    subst hs
    rcases hx with he | ⟨err, hf⟩
    · rw [dropBlank_append, dropBlank_cons_line x rest (Ends_not_blank x he),
        loop_block_cons pre rest x t hpre he,
        loop_block_cons (dropBlank pre) (dropBlank rest) x t hpre' he, boundaryIds_dropBlank,
        contentLines_dropBlank]
      exact ⟨rfl, (dropBlank_idem rest).symm⟩
    · rw [dropBlank_append, dropBlank_cons_line x rest (Fails_not_blank x err hf),
        loop_fail_at pre rest x t err hpre hf,
        loop_fail_at (dropBlank pre) (dropBlank rest) x t err hpre' hf, boundaryIds_dropBlank,
        contentLines_dropBlank]
      exact ⟨rfl, (dropBlank_idem rest).symm⟩

/-! ## What `Lines` holds -/

theorem contentLines_not_End (pre : List GoString) (h : ∀ raw ∈ pre, Continues raw) :
    ∀ l ∈ contentLines pre, l.Tag ≠ "End".toList := by
  induction pre with
  | nil =>
    intro l hl
    exact absurd hl (List.not_mem_nil _)
  | cons raw pre ih =>
    have ih' := ih (fun r hr => h r (List.mem_cons_of_mem _ hr))
    rcases h raw (List.mem_cons_self _ _) with hb | ⟨hp, _⟩ | ⟨hl, hE, _⟩
    · rw [contentLines_cons_skip raw pre (Or.inl hb)]
      exact ih'
    · rw [contentLines_cons_skip raw pre (Or.inr hp)]
      exact ih'
    · obtain ⟨hne, hpre⟩ := ParseLine_ok_not_blank _ hl
      rw [contentLines_cons_line raw pre hne hpre]
      intro l hmem
      rcases List.mem_cons.mp hmem with rfl | hm
      · exact hE
      · exact ih' l hm

theorem parsedLines_eq_filter_map (s : List GoString) :
    parsedLines s =
      (s.filter (fun raw => decide ((ParseLine (TrimSpace raw)).2 = none))).map
        (fun raw => (ParseLine (TrimSpace raw)).1) := by
  induction s with
  | nil => rfl
  | cons raw s ih =>
    by_cases h : (ParseLine (TrimSpace raw)).2 = none
    · rw [parsedLines_cons_ok raw s h, List.filter_cons_of_pos (by simpa using h),
        List.map_cons, ih]
    · rw [parsedLines_cons_fail raw s h, List.filter_cons_of_neg (by simpa using h), ih]

/-- A parsed line has a non-empty tag made of word characters. -/
theorem ParseLine_ok_tag (s : GoString) (h : (ParseLine s).2 = none) :
    (ParseLine s).1.Tag ≠ [] ∧ ∀ c ∈ (ParseLine s).1.Tag, reWord c = true := by
  obtain ⟨h1, h2, _⟩ := lineFields_some s _ _ (ParseLine_ok s h)
  exact ⟨h1, h2⟩

theorem parsedLines_tag (s : List GoString) :
    ∀ l ∈ parsedLines s, l.Tag ≠ [] ∧ ∀ c ∈ l.Tag, reWord c = true := by
  induction s with
  | nil =>
    intro l hl
    exact absurd hl (List.not_mem_nil _)
  | cons raw s ih =>
    by_cases h : (ParseLine (TrimSpace raw)).2 = none
    · rw [parsedLines_cons_ok raw s h]
      intro l hmem
      rcases List.mem_cons.mp hmem with rfl | hm
      · exact ParseLine_ok_tag _ h
      · exact ih l hm
    · rw [parsedLines_cons_fail raw s h]
      exact ih

/-- Whatever the outcome, the lines read are a prefix of the stream and `Lines` holds, in
order, the parsed lines among them. -/
theorem loop_lines (s : List GoString) (t : Transaction) :
    ∃ consumed, s = consumed ++ (ParseTransactionLoop t s).2
      ∧ (ParseTransactionLoop t s).1.1.Lines = t.Lines ++ parsedLines consumed := by
  rcases stream_cases s with hall | ⟨pre, x, rest, hs, hpre, hx⟩
  · refine ⟨s, ?_, ?_⟩
    · rw [loop_eof s t hall, List.append_nil]
    · rw [loop_eof s t hall, contentLines_eq_parsedLines s hall]
  · subst hs
    refine ⟨pre ++ [x], ?_, ?_⟩
    · rcases hx with he | ⟨err, hf⟩
      · rw [loop_block_cons pre rest x t hpre he]
        simp
      · rw [loop_fail_at pre rest x t err hpre hf]
        simp
    · rcases hx with he | ⟨err, hf⟩
      · rw [loop_block_cons pre rest x t hpre he, parsedLines_append,
          parsedLines_cons_ok x [] he.1, contentLines_eq_parsedLines pre hpre]
        simp [parsedLines]
      · rw [loop_fail_at pre rest x t err hpre hf, parsedLines_append,
          contentLines_eq_parsedLines pre hpre]
        simp

/-! ## Identifiers that do not fit 64 bits -/

theorem foldl_digits_mono (cs : GoString) (n m : Nat) (h : n ≤ m) :
    cs.foldl (fun n c => n * 10 + (c.toNat - '0'.toNat)) n
      ≤ cs.foldl (fun n c => n * 10 + (c.toNat - '0'.toNat)) m := by
  induction cs generalizing n m with
  | nil => exact h
  | cons c cs ih =>
    simp only [List.foldl_cons]
    exact ih _ _ (by omega)

theorem decimalValue_append_ge (a d : GoString) : decimalValue d ≤ decimalValue (a ++ d) := by
  unfold decimalValue
  rw [List.foldl_append]
  exact foldl_digits_mono d _ _ (Nat.zero_le _)

theorem ParseUintLoop_range (s0 cs : GoString) (n : Nat) (hn : n < 2 ^ 64)
    (hdig : ∀ c ∈ cs, isDigit c = true)
    (hbig : 2 ^ 64 ≤ cs.foldl (fun n c => n * 10 + (c.toNat - '0'.toNat)) n) :
    ParseUintLoop s0 n cs = (maxUint64, some (Error.NumError s0 NumErr.ErrRange)) := by
  induction cs generalizing n with
  | nil =>
    simp only [List.foldl_nil] at hbig
    omega
  | cons c cs ih =>
    have hc : isDigit c = true := hdig c (List.mem_cons_self _ _)
    simp only [List.foldl_cons] at hbig
    rw [ParseUintLoop]
    simp only [hc, if_true]
    by_cases hcut : n ≥ maxUint64 / 10 + 1
    · simp only [hcut, if_true]
    · simp only [hcut, if_false]
      have h10 : n * 10 < 2 ^ 64 := by
        simp only [maxUint64] at hcut
        norm_num at hcut ⊢
        omega
      have hd : c.toNat - '0'.toNat < 10 := by
        simp only [isDigit, Bool.and_eq_true, decide_eq_true_eq] at hc
        have h0 : '0'.toNat = 48 := rfl
        have h9 : '9'.toNat = 57 := rfl
        rw [h0, h9] at hc
        rw [h0]
        omega
      rw [Nat.mod_eq_of_lt h10]
      by_cases hw : n * 10 + (c.toNat - '0'.toNat) < 2 ^ 64
      · rw [Nat.mod_eq_of_lt hw]
        have hno : ¬ (n * 10 + (c.toNat - '0'.toNat) < n * 10
            ∨ n * 10 + (c.toNat - '0'.toNat) > maxUint64) := by
          simp only [maxUint64]
          omega
        simp only [hno, if_false]
        exact ih _ hw (fun x hx => hdig x (List.mem_cons_of_mem _ hx)) hbig
      · have hwrap : (n * 10 + (c.toNat - '0'.toNat)) % 2 ^ 64 < n * 10 := by
          have e : (n * 10 + (c.toNat - '0'.toNat)) % 2 ^ 64
              = n * 10 + (c.toNat - '0'.toNat) - 2 ^ 64 := by
            rw [Nat.mod_eq_sub_mod (by omega), Nat.mod_eq_of_lt (by omega)]
          rw [e]
          omega
        simp only [hwrap, true_or, if_true]

/-- A string of digits whose value does not fit 64 bits is a range error. -/
theorem ParseUint_range (s : GoString) (hne : s ≠ []) (hdig : ∀ c ∈ s, isDigit c = true)
    (hbig : 2 ^ 64 ≤ decimalValue s) :
    ParseUint s = (maxUint64, some (Error.NumError s NumErr.ErrRange)) := by
  unfold ParseUint
  simp only [hne, if_false]
  exact ParseUintLoop_range s s 0 (by norm_num) hdig hbig

/-- A string that parses is a non-empty string of digits, and the result is its value,
which fits 64 bits. -/
theorem ParseUint_ok (s : GoString) (h : (ParseUint s).2 = none) :
    s ≠ [] ∧ (∀ c ∈ s, isDigit c = true) ∧ (ParseUint s).1 = decimalValue s
      ∧ decimalValue s < 2 ^ 64 := by
  have hgood : s ≠ [] ∧ ∀ c ∈ s, isDigit c = true := by
    by_contra hbad
    obtain ⟨v, e, hu⟩ := ParseUint_bad s hbad
    rw [hu] at h
    cases h
  by_cases hlt : decimalValue s < 2 ^ 64
  · refine ⟨hgood.1, hgood.2, ?_, hlt⟩
    rw [ParseUint_digits s hgood.1 hgood.2 hlt]
  · rw [ParseUint_range s hgood.1 hgood.2 (by omega)] at h
    cases h

/-- A string that ends with a numeral too large for 64 bits does not parse. -/
theorem ParseUint_suffix_big (a d : GoString)
    (hbig : 2 ^ 64 ≤ decimalValue d) : (ParseUint (a ++ d)).2 ≠ none := by
  intro h
  obtain ⟨_, _, _, hlt⟩ := ParseUint_ok _ h
  have := decimalValue_append_ge a d
  omega

theorem getLastD_Split_suffix (u d : GoString) (hd : ' ' ∉ d) :
    ∃ a, (Split ' ' (u ++ d)).getLastD [] = a ++ d := by
  induction u with
  | nil =>
    refine ⟨[], ?_⟩
    rw [List.nil_append, Split_of_not_mem ' ' d hd]
    rfl
  | cons c u ih =>
    obtain ⟨a, ha⟩ := ih
    rw [List.cons_append, Split]
    cases hsp : Split ' ' (u ++ d) with
    | nil => exact absurd hsp (Split_ne_nil _ _)
    | cons p ps =>
      rw [hsp] at ha
      split_ifs with hc
      · exact ⟨a, by rw [List.getLastD_cons]; exact ha⟩
      · cases ps with
        | nil =>
          refine ⟨c :: a, ?_⟩
          simp only [List.getLastD_cons, List.getLastD_nil] at ha ⊢
          rw [ha, List.cons_append]
        | cons q qs =>
          refine ⟨a, ?_⟩
          simp only [List.getLastD_cons] at ha ⊢
          exact ha

theorem unsplit_Split (sep : Char) (s : GoString) : unsplit sep (Split sep s) = s := by
  induction s with
  | nil => rfl
  | cons c cs ih =>
    rw [Split]
    cases hsp : Split sep cs with
    | nil => exact absurd hsp (Split_ne_nil _ _)
    | cons p ps =>
      rw [hsp] at ih
      split_ifs with hc
      · rw [unsplit, ih, hc, List.nil_append]
      · cases ps with
        | nil =>
          simp only [unsplit] at ih ⊢
          rw [ih]
        | cons q qs =>
          simp only [unsplit] at ih ⊢
          rw [List.cons_append, ih]

/-- A reference that parses: the string is three fields separated by single spaces, the
middle one a numeral whose exact value is the identifier returned. -/
theorem ParseReference_ok (s : GoString) (h : (ParseReference s).2 = none) :
    ∃ t d r, s = t ++ ' ' :: (d ++ ' ' :: r) ∧ d ≠ [] ∧ (∀ c ∈ d, isDigit c = true)
      ∧ decimalValue d < 2 ^ 64 ∧ (ParseReference s).1 = ⟨t, decimalValue d, r⟩ := by
  have hjoin := unsplit_Split ' ' s
  unfold ParseReference at h ⊢
  split at h
  · rename_i p0 p1 p2 hsp
    rw [hsp] at hjoin
    cases hu : (ParseUint p1).2 with
    | some e =>
      have hp : ParseUint p1 = ((ParseUint p1).1, some e) := Prod.ext rfl hu
      rw [hp] at h
      cases h
    | none =>
      have hp : ParseUint p1 = ((ParseUint p1).1, none) := Prod.ext rfl hu
      obtain ⟨h1, h2, h3, h4⟩ := ParseUint_ok p1 hu
      refine ⟨p0, p1, p2, ?_, h1, h2, h4, ?_⟩
      · rw [← hjoin]
        rfl
      · rw [hp, h3]
        show (⟨p0, toUint (decimalValue p1), p2⟩ : Reference) = _
        rw [toUint_of_lt _ h4]
  · cases h

theorem ParseReference_count_ne (s : GoString) (hs : s.count ' ' ≠ 2) :
    (ParseReference s).2 ≠ none := by
  have hl := Split_length ' ' s
  unfold ParseReference
  split
  · rename_i p0 p1 p2 he
    rw [he] at hl
    simp at hl
    omega
  · exact Option.some_ne_none _

/-- The identifiers of the boundary lines read without error are the exact values of
their last fields. -/
theorem boundaryIds_exact (pre : List GoString) (h : ∀ raw ∈ pre, Continues raw) :
    boundaryIds pre =
      (pre.filter (fun raw => HasPrefix (TrimSpace raw) '*')).map
        (fun raw => decimalValue ((Split ' ' (TrimSpace raw)).getLastD [])) := by
  induction pre with
  | nil => rfl
  | cons raw pre ih =>
    have ih' := ih (fun r hr => h r (List.mem_cons_of_mem _ hr))
    by_cases hp : HasPrefix (TrimSpace raw) '*' = true
    · have hu : (ParseUint ((Split ' ' (TrimSpace raw)).getLastD [])).2 = none := by
        rcases h raw (List.mem_cons_self _ _) with hb | ⟨_, hu⟩ | ⟨hl, _, _⟩
        · rw [hb] at hp
          cases hp
        · exact hu
        · exact absurd hl (ParseLine_boundary_fails _ hp)
      obtain ⟨_, _, h3, h4⟩ := ParseUint_ok _ hu
      rw [boundaryIds_cons_boundary raw pre hp,
        List.filter_cons_of_pos (p := fun raw => HasPrefix (TrimSpace raw) '*') hp,
        List.map_cons, ih', h3, toUint_of_lt _ h4]
    · have hp' : HasPrefix (TrimSpace raw) '*' = false := by simpa using hp
      rw [boundaryIds_cons_other raw pre hp',
        List.filter_cons_of_neg (p := fun raw => HasPrefix (TrimSpace raw) '*') hp, ih']

/-! ## The line parser -/

/-- C2: `ParseLine` extracts tag and value from every well-formed content line. For a
non-empty run `d` of dashes, a non-empty run `w` of whitespace (the class `\s` of the
pattern), a non-empty tag `t` of word characters, a whitespace run `w2` and a value `v`
without a newline, where `v` is empty or `w2` is non-empty and `v` does not start with
whitespace, `ParseLine (d ++ w ++ t ++ w2 ++ v)` returns `Line{Tag: t, Value: v}` and no
error. -/
theorem C2_ParseLine_wellformed (d w t w2 v : GoString)
    (hd : d ≠ []) (hd' : ∀ c ∈ d, c = '-')
    (hw : w ≠ []) (hw' : ∀ c ∈ w, reSpace c = true)
    (ht : t ≠ []) (ht' : ∀ c ∈ t, reWord c = true)
    (hw2 : ∀ c ∈ w2, reSpace c = true)
    (hv : '\n' ∉ v)
    (hsep : v = [] ∨ (w2 ≠ [] ∧ ∀ c, v.head? = some c → reSpace c = false)) :
    ParseLine (d ++ w ++ t ++ w2 ++ v) = (⟨t, v⟩, none) := by
  have hstop : ∀ c, (w2 ++ v).head? = some c → reWord c = false := by
    intro c hc
    by_cases hw2e : w2 = []
    · rcases hsep with hv0 | ⟨hne, _⟩
      · rw [hw2e, hv0] at hc
        simp at hc
      · exact absurd hw2e hne
    · rw [head?_append_of_ne_nil _ _ hw2e] at hc
      exact reSpace_not_reWord c (hw2 c (mem_of_head? w2 c hc))
  have hv0 : ∀ c, v.head? = some c → reSpace c = false := by
    intro c hc
    rcases hsep with hv0 | ⟨_, h⟩
    · rw [hv0] at hc
      simp at hc
    · exact h c hc
  have hany : ∀ c ∈ v, reAny c = true := by
    intro c hc
    simp only [reAny, bne_iff_ne, ne_eq]
    rintro rfl
    exact hv hc
  have hl := lineFields_append d w t w2 v hd (fun c hc => by simp [reDash, hd' c hc]) hw hw'
    ht ht' hw2 hstop hv0 hany
  rw [ParseLine_eq]
  simp only [List.append_assoc]
  rw [hl]

/-- C2 on the line `--- TAG value`. -/
theorem C2_witness :
    ("---".toList ≠ [] ∧ (∀ c ∈ "---".toList, c = '-')
        ∧ " ".toList ≠ [] ∧ (∀ c ∈ " ".toList, reSpace c = true)
        ∧ "TAG".toList ≠ [] ∧ (∀ c ∈ "TAG".toList, reWord c = true)
        ∧ (∀ c ∈ " ".toList, reSpace c = true) ∧ '\n' ∉ "value".toList
        ∧ (" ".toList ≠ [] ∧ ∀ c, "value".toList.head? = some c → reSpace c = false))
      ∧ ParseLine ("---".toList ++ " ".toList ++ "TAG".toList ++ " ".toList ++ "value".toList)
          = (⟨"TAG".toList, "value".toList⟩, none) :=
  ⟨⟨by decide, by decide, by decide, by decide, by decide, by decide, by decide, by decide,
      by decide, by decide⟩,
    C2_ParseLine_wellformed "---".toList " ".toList "TAG".toList " ".toList "value".toList
      (by decide) (by decide) (by decide) (by decide) (by decide) (by decide) (by decide)
      (by decide) (Or.inr ⟨by decide, by decide⟩)⟩

/-- C3: `ParseLine` fails exactly on the lines that do not have the lexical shape. For a
string `s` without a newline, `ParseLine s` returns an error if and only if `s` does not
begin with one or more dashes, then one or more whitespace characters (the class `\s`),
then a word character; and whenever it returns an error, the `Line` returned is the zero
`Line` and the error carries the text `s`. -/
theorem C3_ParseLine_fails_iff (s : GoString) (hs : '\n' ∉ s) :
    ((ParseLine s).2 ≠ none ↔
      ¬ ∃ d w c rest, d ≠ [] ∧ (∀ x ∈ d, x = '-') ∧ w ≠ [] ∧ (∀ x ∈ w, reSpace x = true)
          ∧ reWord c = true ∧ s = d ++ (w ++ c :: rest))
    ∧ ((ParseLine s).2 ≠ none →
        ParseLine s = (⟨[], []⟩, some (Error.ParseLineFailed s))) := by
  have hany : ((((s.dropWhile reDash).dropWhile reSpace).dropWhile reWord).dropWhile
      reSpace).dropWhile reAny = [] := by
    apply dropWhile_eq_nil_of_all
    intro c hc
    have hmem : c ∈ s :=
      (((List.dropWhile_suffix reSpace).trans (List.dropWhile_suffix reWord)).trans
        ((List.dropWhile_suffix reSpace).trans (List.dropWhile_suffix reDash))).subset hc
    simp only [reAny, bne_iff_ne, ne_eq]
    rintro rfl
    exact hs hmem
  rw [lineShape_iff, ParseLine_eq]
  unfold lineFields
  simp only [hany, and_true]
  constructor
  · split_ifs with h
    · exact ⟨fun hne => absurd rfl hne, fun hn => absurd h hn⟩
    · exact ⟨fun _ => h, fun _ => Option.some_ne_none _⟩
  · split_ifs with h
    · exact fun hne => absurd rfl hne
    · exact fun _ => rfl

/-- C3 on the line `garbage no dashes`. -/
theorem C3_witness :
    '\n' ∉ "garbage no dashes".toList
      ∧ ParseLine "garbage no dashes".toList
          = (⟨[], []⟩, some (Error.ParseLineFailed "garbage no dashes".toList)) :=
  ⟨by decide,
    (C3_ParseLine_fails_iff "garbage no dashes".toList (by decide)).2 (by decide)⟩

/-- C4: parsing, re-serializing and parsing again reproduces the pair. When `ParseLine s`
succeeds with the line `l`, `l.String()` is `l.Tag ++ " " ++ l.Value`, and
`ParseLine ("- " ++ l.String())` succeeds and returns `l`. -/
theorem C4_ParseLine_roundtrip (s : GoString) (l : Line) (h : ParseLine s = (l, none)) :
    l.String = l.Tag ++ " ".toList ++ l.Value
      ∧ ParseLine ("- ".toList ++ l.String) = (l, none) := by
  refine ⟨rfl, ?_⟩
  rw [ParseLine_eq] at h
  cases hf : lineFields s with
  | none =>
    rw [hf] at h
    simp at h
  | some tv =>
    obtain ⟨tag, value⟩ := tv
    rw [hf] at h
    simp only [Prod.mk.injEq, and_true] at h
    subst h
    obtain ⟨ht, ht', hv, hv0, _⟩ := lineFields_some s tag value hf
    have hl := lineFields_append ['-'] [' '] tag [' '] value (by simp) (by simp [reDash])
      (by simp) (by simp [reSpace]) ht ht' (by simp [reSpace])
      (by intro c hc; simp at hc; subst hc; decide) hv0 hv
    rw [ParseLine_eq]
    have e : "- ".toList ++ Line.String ⟨tag, value⟩
        = ['-'] ++ ([' '] ++ (tag ++ ([' '] ++ value))) := by
      simp [Line.String]
    rw [e, hl]

/-- C4 on the line `--- TAG value`. -/
theorem C4_witness :
    ParseLine "--- TAG value".toList = (⟨"TAG".toList, "value".toList⟩, none)
      ∧ ParseLine ("- ".toList ++ Line.String ⟨"TAG".toList, "value".toList⟩)
          = (⟨"TAG".toList, "value".toList⟩, none) :=
  ⟨by decide,
    (C4_ParseLine_roundtrip "--- TAG value".toList ⟨"TAG".toList, "value".toList⟩
      (by decide)).2⟩

/-! ## The reference parser -/

/-- C5: `ParseReference` returns the three fields of every well-formed reference value.
For a type `t` and a reason `r` without a space, and an identifier `id < 2^64` written as
a non-empty string `dstr` of decimal digits, `ParseReference (t ++ " " ++ dstr ++ " " ++ r)`
returns `Reference{Type: t, VXID: id, Reason: r}` and no error. -/
theorem C5_ParseReference_wellformed (t r dstr : GoString) (id : Nat)
    (ht : ' ' ∉ t) (hr : ' ' ∉ r)
    (hne : dstr ≠ []) (hdig : ∀ c ∈ dstr, isDigit c = true)
    (hval : decimalValue dstr = id) (hid : id < 2 ^ 64) :
    ParseReference (t ++ " ".toList ++ dstr ++ " ".toList ++ r) = (⟨t, id, r⟩, none) := by
  have hds : ' ' ∉ dstr := fun hm => isDigit_ne_space ' ' (hdig ' ' hm) rfl
  have e : t ++ " ".toList ++ dstr ++ " ".toList ++ r = t ++ ' ' :: (dstr ++ ' ' :: r) := by
    simp
  subst hval
  rw [e]
  unfold ParseReference
  rw [Split_append ' ' t _ ht, Split_append ' ' dstr _ hds, Split_of_not_mem ' ' r hr]
  simp only [ParseUint_digits dstr hne hdig hid, toUint_of_lt _ hid]

/-- C5 on the value `bereq 32770 fetch`. -/
theorem C5_witness :
    (' ' ∉ "bereq".toList ∧ ' ' ∉ "fetch".toList ∧ "32770".toList ≠ []
        ∧ (∀ c ∈ "32770".toList, isDigit c = true) ∧ decimalValue "32770".toList = 32770
        ∧ 32770 < 2 ^ 64)
      ∧ ParseReference ("bereq".toList ++ " ".toList ++ "32770".toList ++ " ".toList
          ++ "fetch".toList) = (⟨"bereq".toList, 32770, "fetch".toList⟩, none) :=
  ⟨⟨by decide, by decide, by decide, by decide, by decide, by decide⟩,
    C5_ParseReference_wellformed "bereq".toList "fetch".toList "32770".toList 32770
      (by decide) (by decide) (by decide) (by decide) (by decide) (by decide)⟩

/-- C6: `ParseReference` rejects every value that does not have exactly three
space-separated fields. For a string `s` whose number of spaces is not 2, it returns the
zero `Reference` and the error saying that 3 parts were expected and how many were found,
which is the number of spaces plus one. -/
theorem C6_ParseReference_field_count (s : GoString) (hs : s.count ' ' ≠ 2) :
    ParseReference s = (⟨[], 0, []⟩, some (Error.ExpectedParts s (s.count ' ' + 1))) := by
  have hl := Split_length ' ' s
  unfold ParseReference
  split
  · rename_i p0 p1 p2 he
    rw [he] at hl
    simp at hl
    omega
  · rw [hl]

/-- C6 on the value `req 1`, which has two fields. -/
theorem C6_witness :
    "req 1".toList.count ' ' ≠ 2
      ∧ ParseReference "req 1".toList
          = (⟨[], 0, []⟩, some (Error.ExpectedParts "req 1".toList 2)) :=
  ⟨by decide, C6_ParseReference_field_count "req 1".toList (by decide)⟩

/-- C7: `ParseReference` rejects a non-numeric identifier and returns nothing partial. For
a string with exactly two spaces, `a ++ " " ++ m ++ " " ++ b`, whose middle field `m` is not
a non-empty string of decimal digits, it returns the zero `Reference` (neither `Type` nor
`Reason` is filled in) and the number-parsing error for `m`. -/
theorem C7_ParseReference_bad_id (a m b : GoString)
    (ha : ' ' ∉ a) (hm : ' ' ∉ m) (hb : ' ' ∉ b)
    (hbad : ¬ (m ≠ [] ∧ ∀ c ∈ m, isDigit c = true)) :
    ∃ e, ParseReference (a ++ " ".toList ++ m ++ " ".toList ++ b)
      = (⟨[], 0, []⟩, some (Error.NumError m e)) := by
  have e : a ++ " ".toList ++ m ++ " ".toList ++ b = a ++ ' ' :: (m ++ ' ' :: b) := by
    simp
  obtain ⟨v, err, hu⟩ := ParseUint_bad m hbad
  refine ⟨err, ?_⟩
  rw [e]
  unfold ParseReference
  rw [Split_append ' ' a _ ha, Split_append ' ' m _ hm, Split_of_not_mem ' ' b hb]
  simp only [hu]

/-- C7 on the value `req abc rxreq`. -/
theorem C7_witness :
    (' ' ∉ "req".toList ∧ ' ' ∉ "abc".toList ∧ ' ' ∉ "rxreq".toList
        ∧ ¬ ("abc".toList ≠ [] ∧ ∀ c ∈ "abc".toList, isDigit c = true))
      ∧ ∃ e, ParseReference ("req".toList ++ " ".toList ++ "abc".toList ++ " ".toList
          ++ "rxreq".toList) = (⟨[], 0, []⟩, some (Error.NumError "abc".toList e)) :=
  ⟨⟨by decide, by decide, by decide, by decide⟩,
    C7_ParseReference_bad_id "req".toList "abc".toList "rxreq".toList
      (by decide) (by decide) (by decide) (by decide)⟩

/-! ## The transaction reader -/

/-- C1, as stated, fails: a content line is trimmed before it is parsed, so for the stream
`* 1`, `- A v ` (with a trailing space), `- End` the first element of `Lines` is
`{A, "v"}`, which is not `ParseLine` of the line as it stands in the stream, `{A, "v "}`. -/
theorem C1_counterexample :
    ParseLine "- A v ".toList = (⟨"A".toList, "v ".toList⟩, none)
      ∧ ParseLine "- End".toList = (⟨"End".toList, []⟩, none)
      ∧ ParseTransaction ["* 1".toList, "- A v ".toList, "- End".toList]
          = ((⟨1, ⟨[], 0, []⟩, [⟨"A".toList, "v".toList⟩, ⟨"End".toList, []⟩]⟩, none), [])
      ∧ (ParseTransaction ["* 1".toList, "- A v ".toList, "- End".toList]).1.1.Lines
          ≠ [(ParseLine "- A v ".toList).1, (ParseLine "- End".toList).1] := by
  decide

/-- C1 (amended): `ParseTransaction` on a single well-formed block returns the full record,
each line being parsed after trimming. For `id < 2^64` written as the decimal numeral
`dstr`, a boundary line `"*" ++ m ++ " " ++ dstr`, content lines `cs` that each parse once
trimmed, none tagged `End`, at most one tagged `Begin` and that one with a well-formed
reference value, and a final line `e` tagged `End`, the call returns no error, leaves nothing
unread and returns `VXID = id`, `Begin` the parsed reference of the `Begin` line (the zero
`Reference` when there is none) and `Lines` the parsed trimmed lines of `cs` and `e` in
stream order. -/
theorem C1_ParseTransaction_block (id : Nat) (m dstr : GoString) (cs : List GoString)
    (e : GoString)
    (hne : dstr ≠ []) (hdig : ∀ c ∈ dstr, isDigit c = true)
    (hval : decimalValue dstr = id) (hid : id < 2 ^ 64)
    (hcs : ∀ c ∈ cs, (ParseLine (TrimSpace c)).2 = none
      ∧ (ParseLine (TrimSpace c)).1.Tag ≠ "End".toList)
    (hone : ((cs.map (fun c => (ParseLine (TrimSpace c)).1)).filter
      (fun l => l.Tag = "Begin".toList)).length ≤ 1)
    (href : ∀ c ∈ cs, (ParseLine (TrimSpace c)).1.Tag = "Begin".toList →
      (ParseReference (ParseLine (TrimSpace c)).1.Value).2 = none)
    (he : (ParseLine (TrimSpace e)).2 = none
      ∧ (ParseLine (TrimSpace e)).1.Tag = "End".toList) :
    ParseTransaction (("*".toList ++ m ++ " ".toList ++ dstr) :: cs ++ [e]) =
      ((⟨id,
          (beginRefs (cs.map (fun c => (ParseLine (TrimSpace c)).1))).headD ⟨[], 0, []⟩,
          cs.map (fun c => (ParseLine (TrimSpace c)).1) ++ [(ParseLine (TrimSpace e)).1]⟩,
        none), []) := by
  subst hval
  have eb : "*".toList ++ m ++ " ".toList ++ dstr = '*' :: (m ++ ' ' :: dstr) := by simp
  obtain ⟨hb1, hb2⟩ := boundary_ok m dstr hne hdig hid
  have hparsed : ∀ c ∈ cs, (ParseLine (TrimSpace c)).2 = none := fun c hc => (hcs c hc).1
  have hcont : ∀ raw ∈ ('*' :: (m ++ ' ' :: dstr)) :: cs, Continues raw := by
    intro raw hraw
    rcases List.mem_cons.mp hraw with rfl | hc
    · exact Or.inr (Or.inl ⟨hb1, by rw [hb2]⟩)
    · exact Or.inr (Or.inr ⟨(hcs raw hc).1, (hcs raw hc).2, href raw hc⟩)
  have hblock := loop_block _ [] e ⟨0, ⟨[], 0, []⟩, []⟩ hcont he
  rw [List.append_nil] at hblock
  unfold ParseTransaction
  rw [eb, hblock, boundaryIds_cons_boundary _ _ hb1, boundaryIds_of_parsed cs hparsed,
    contentLines_cons_skip _ _ (Or.inr hb1), contentLines_of_parsed cs hparsed, hb2,
    toUint_of_lt _ hid, getLastD_eq_headD _ _ (by rw [beginRefs, List.length_map]; exact hone)]
  rfl

/-- C1 (amended) on the stream `*   << Request  >> 32770`, `-   Begin   req 32769 rxreq`,
`-   ReqURL   /200`, `-   End`. -/
theorem C1_witness :
    ("32770".toList ≠ [] ∧ (∀ c ∈ "32770".toList, isDigit c = true)
        ∧ decimalValue "32770".toList = 32770 ∧ 32770 < 2 ^ 64)
      ∧ ParseTransaction (("*".toList ++ "   << Request  >>".toList ++ " ".toList
            ++ "32770".toList)
          :: ["-   Begin   req 32769 rxreq".toList, "-   ReqURL   /200".toList]
          ++ ["-   End".toList])
        = ((⟨32770, ⟨"req".toList, 32769, "rxreq".toList⟩,
            [⟨"Begin".toList, "req 32769 rxreq".toList⟩, ⟨"ReqURL".toList, "/200".toList⟩,
              ⟨"End".toList, []⟩]⟩, none), []) :=
  ⟨⟨by decide, by decide, by decide, by decide⟩,
    C1_ParseTransaction_block 32770 "   << Request  >>".toList "32770".toList
      ["-   Begin   req 32769 rxreq".toList, "-   ReqURL   /200".toList] "-   End".toList
      (by decide) (by decide) (by decide) (by decide) (by decide) (by decide) (by decide)
      (by decide)⟩

/-- C8: on a stream with nothing in it `ParseTransaction` reports end-of-stream with an
empty result. For a finite stream that is empty or holds only blank lines (empty once
trimmed), it consumes the whole stream and returns `io.EOF` with the zero `Transaction`. -/
theorem C8_ParseTransaction_empty (stream : List GoString)
    (h : ∀ raw ∈ stream, TrimSpace raw = []) :
    ParseTransaction stream = ((⟨0, ⟨[], 0, []⟩, []⟩, some Error.EOF), []) := by
  unfold ParseTransaction
  induction stream with
  | nil => rfl
  | cons raw rest ih =>
    rw [loop_blank _ raw rest (h raw (List.mem_cons_self _ _))]
    exact ih (fun r hr => h r (List.mem_cons_of_mem _ hr))

/-- C8 on a stream of an empty line and a line of a space and a tab. -/
theorem C8_witness :
    (∀ raw ∈ ["".toList, " \t".toList], TrimSpace raw = [])
      ∧ ParseTransaction ["".toList, " \t".toList]
          = ((⟨0, ⟨[], 0, []⟩, []⟩, some Error.EOF), []) :=
  ⟨by decide, C8_ParseTransaction_empty ["".toList, " \t".toList] (by decide)⟩

/-- C9, as stated, fails: on the stream `*   << Request  >> 32770`, `-   ReqURL   /200`,
where no line fails and none is tagged `End`, `ParseTransaction` returns `io.EOF` together
with the transaction read so far, which is not the zero `Transaction`. -/
theorem C9_counterexample :
    (∀ raw ∈ ["*   << Request  >> 32770".toList, "-   ReqURL   /200".toList], Continues raw)
      ∧ ParseTransaction ["*   << Request  >> 32770".toList, "-   ReqURL   /200".toList]
          = ((⟨32770, ⟨[], 0, []⟩, [⟨"ReqURL".toList, "/200".toList⟩]⟩, some Error.EOF), [])
      ∧ (ParseTransaction
            ["*   << Request  >> 32770".toList, "-   ReqURL   /200".toList]).1.1
          ≠ ⟨0, ⟨[], 0, []⟩, []⟩ := by
  decide

/-- C9 (amended): an unterminated transaction is returned as read, with `io.EOF`. For a
finite stream in which no line fails to parse and no line tagged `End` occurs,
`ParseTransaction` consumes the whole stream, signals `io.EOF` and returns the transaction
accumulated from the lines read: `VXID` of the last boundary line (0 when there is none),
`Begin` of the last line tagged `Begin` (the zero `Reference` when there is none) and
`Lines` the parsed content lines in stream order. -/
theorem C9_ParseTransaction_unterminated (stream : List GoString)
    (h : ∀ raw ∈ stream, Continues raw) :
    ParseTransaction stream =
      ((⟨(boundaryIds stream).getLastD 0,
          (beginRefs (contentLines stream)).getLastD ⟨[], 0, []⟩,
          contentLines stream⟩, some Error.EOF), []) := by
  unfold ParseTransaction
  have hrun := loop_run stream [] ⟨0, ⟨[], 0, []⟩, []⟩ h
  rw [List.append_nil] at hrun
  rw [hrun, ParseTransactionLoop]
  rfl

/-- C9 (amended) on the stream `*   << Request  >> 32770`, `-   ReqURL   /200`. -/
theorem C9_witness :
    (∀ raw ∈ ["*   << Request  >> 32770".toList, "-   ReqURL   /200".toList], Continues raw)
      ∧ ParseTransaction ["*   << Request  >> 32770".toList, "-   ReqURL   /200".toList]
          = ((⟨32770, ⟨[], 0, []⟩, [⟨"ReqURL".toList, "/200".toList⟩]⟩, some Error.EOF), []) :=
  ⟨by decide,
    C9_ParseTransaction_unterminated
      ["*   << Request  >> 32770".toList, "-   ReqURL   /200".toList] (by decide)⟩

/-- C10: successive calls on one stream return successive transactions with no line bleed.
For complete blocks `bs` (each a run of blank lines, valid boundary lines and well-formed
content lines not tagged `End`, closed by its first line tagged `End`) and any stream `r`
after a block, `ParseTransaction` on `b ++ r` returns the same transaction and the nil
error as on `b` alone and leaves exactly `r` unread; and `k + 1` successive calls on the
`k` blocks in a row return the transactions of the blocks in order, each as from its block
alone, then `io.EOF` with the zero `Transaction`, with nothing left unread. -/
theorem C10_successive_calls (bs : List (List GoString)) (r : List GoString)
    (h : ∀ b ∈ bs, CompleteBlock b) :
    (∀ b ∈ bs, ParseTransaction (b ++ r) = ((ParseTransaction b).1, r)
        ∧ (ParseTransaction b).1.2 = none ∧ (ParseTransaction b).2 = [])
      ∧ successiveCalls (bs.length + 1) bs.flatten
          = (bs.map (fun b => (ParseTransaction b).1)
              ++ [(⟨0, ⟨[], 0, []⟩, []⟩, some Error.EOF)], []) := by
  have hone : ∀ b, CompleteBlock b → ∀ r, ParseTransaction (b ++ r) = ((ParseTransaction b).1, r)
      ∧ (ParseTransaction b).1.2 = none ∧ (ParseTransaction b).2 = [] := by
    rintro b ⟨pre, e, rfl, hpre, he⟩ r
    have h1 := loop_block pre r e ⟨0, ⟨[], 0, []⟩, []⟩ hpre he
    have h2 := loop_block pre [] e ⟨0, ⟨[], 0, []⟩, []⟩ hpre he
    rw [List.append_nil] at h2
    unfold ParseTransaction
    rw [h1, h2]
    exact ⟨rfl, rfl, rfl⟩
  refine ⟨fun b hb => hone b (h b hb) r, ?_⟩
  induction bs with
  | nil => rfl
  | cons b bs ih =>
    have hb := (hone b (h b (List.mem_cons_self _ _)) bs.flatten).1
    have ih' := ih (fun x hx => h x (List.mem_cons_of_mem _ hx))
    rw [List.flatten_cons, List.length_cons, successiveCalls, hb, ih']
    rfl

/-- C10 on two blocks in a row. -/
theorem C10_witness :
    (∀ b ∈ [["* << Request >> 5".toList, "- Begin req 4 rxreq".toList, "- End".toList],
        ["".toList, "* << Session >> 4".toList, "- End".toList]], CompleteBlock b)
      ∧ successiveCalls 3
          ["* << Request >> 5".toList, "- Begin req 4 rxreq".toList, "- End".toList,
            "".toList, "* << Session >> 4".toList, "- End".toList]
        = ([(⟨5, ⟨"req".toList, 4, "rxreq".toList⟩,
              [⟨"Begin".toList, "req 4 rxreq".toList⟩, ⟨"End".toList, []⟩]⟩, none),
            (⟨4, ⟨[], 0, []⟩, [⟨"End".toList, []⟩]⟩, none),
            (⟨0, ⟨[], 0, []⟩, []⟩, some Error.EOF)], []) :=
  have hb : ∀ b ∈ [["* << Request >> 5".toList, "- Begin req 4 rxreq".toList, "- End".toList],
      ["".toList, "* << Session >> 4".toList, "- End".toList]], CompleteBlock b := by
    intro b hb
    simp only [List.mem_cons, List.mem_singleton, List.not_mem_nil, or_false] at hb
    rcases hb with rfl | rfl
    · exact ⟨["* << Request >> 5".toList, "- Begin req 4 rxreq".toList], "- End".toList, rfl,
        by decide, by decide⟩
    · exact ⟨["".toList, "* << Session >> 4".toList], "- End".toList, rfl, by decide, by decide⟩
  ⟨hb, (C10_successive_calls _ [] hb).2⟩

/-! ## Failing lines -/

/-- C11: the first failing line aborts the read with its own error and the stream is
consumed exactly through that line. For a stream `pre ++ [x] ++ rest` where the lines of
`pre` cause no error and none is tagged `End`: when `x`, trimmed, is neither blank nor a
boundary line and `ParseLine` fails on it, the `ParseLine` error for the trimmed `x` is
returned; when it is a line tagged `Begin` on whose value `ParseReference` fails, that error
is returned; when it is a boundary line whose last field `ParseUint` rejects, that error is
returned. In each case the error is neither nil nor `io.EOF` and exactly `rest` is left
unread. -/
theorem C11_first_failure (pre rest : List GoString) (x : GoString)
    (hpre : ∀ raw ∈ pre, Continues raw) :
    (TrimSpace x ≠ [] → HasPrefix (TrimSpace x) '*' = false →
        (ParseLine (TrimSpace x)).2 ≠ none →
        (ParseTransaction (pre ++ [x] ++ rest)).1.2
            = some (Error.ParseLineFailed (TrimSpace x))
          ∧ (ParseTransaction (pre ++ [x] ++ rest)).2 = rest)
      ∧ ((ParseLine (TrimSpace x)).2 = none →
          (ParseLine (TrimSpace x)).1.Tag = "Begin".toList →
          ∀ err, (ParseReference (ParseLine (TrimSpace x)).1.Value).2 = some err →
            (ParseTransaction (pre ++ [x] ++ rest)).1.2 = some err ∧ err ≠ Error.EOF
              ∧ (ParseTransaction (pre ++ [x] ++ rest)).2 = rest)
      ∧ (HasPrefix (TrimSpace x) '*' = true →
          ∀ err, (ParseUint ((Split ' ' (TrimSpace x)).getLastD [])).2 = some err →
            (ParseTransaction (pre ++ [x] ++ rest)).1.2 = some err ∧ err ≠ Error.EOF
              ∧ (ParseTransaction (pre ++ [x] ++ rest)).2 = rest) := by
  have key : ∀ err, Fails x err →
      (ParseTransaction (pre ++ [x] ++ rest)).1.2 = some err ∧ err ≠ Error.EOF
        ∧ (ParseTransaction (pre ++ [x] ++ rest)).2 = rest := by
    intro err hx
    have e : pre ++ [x] ++ rest = pre ++ x :: rest := by simp
    unfold ParseTransaction
    rw [e, loop_fail_at pre rest x _ err hpre hx]
    exact ⟨rfl, Fails_ne_EOF x err hx, rfl⟩
  refine ⟨?_, ?_, ?_⟩
  · intro hne hp hl
    cases hl2 : (ParseLine (TrimSpace x)).2 with
    | none => exact absurd hl2 hl
    | some err =>
      have herr := ParseLine_error _ err hl2
      subst herr
      obtain ⟨h1, _, h3⟩ := key _ (Or.inr (Or.inl ⟨hne, hp, hl2⟩))
      exact ⟨h1, h3⟩
  · intro hl hB err hR
    exact key err (Or.inr (Or.inr ⟨hl, hB, hR⟩))
  · intro hp err hu
    exact key err (Or.inl ⟨hp, hu⟩)

/-- C11 on a stream holding the content line `garbage no dashes`. -/
theorem C11_witness :
    (∀ raw ∈ ["* << Request >> 5".toList, "- ReqURL /200".toList], Continues raw)
      ∧ (ParseTransaction (["* << Request >> 5".toList, "- ReqURL /200".toList]
            ++ ["garbage no dashes".toList] ++ ["- End".toList])).1.2
          = some (Error.ParseLineFailed "garbage no dashes".toList)
      ∧ (ParseTransaction (["* << Request >> 5".toList, "- ReqURL /200".toList]
            ++ ["garbage no dashes".toList] ++ ["- End".toList])).2 = ["- End".toList] :=
  ⟨by decide,
    (C11_first_failure ["* << Request >> 5".toList, "- ReqURL /200".toList]
      ["- End".toList] "garbage no dashes".toList (by decide)).1
      (by decide) (by decide) (by decide)⟩

/-- C12: a boundary line whose trailing token is not a valid non-negative integer makes
the read fail. For a line that, trimmed, starts with `*` and whose last token (the text
after its last space, the whole line when it has no space) is not a non-empty string of
decimal digits, `ParseTransaction` on a stream whose first non-blank line is that line
returns the number-parsing error for that token, which is neither nil nor `io.EOF`, with
the zero `Transaction`, and leaves the following lines unread; the token lookup
`p[len(p)-1]` is in range, the split being non-empty. -/
theorem C12_bad_boundary (blanks rest : List GoString) (x : GoString)
    (hb : ∀ raw ∈ blanks, TrimSpace raw = [])
    (hp : HasPrefix (TrimSpace x) '*' = true)
    (hbad : ¬ ((Split ' ' (TrimSpace x)).getLastD [] ≠ []
      ∧ ∀ c ∈ (Split ' ' (TrimSpace x)).getLastD [], isDigit c = true)) :
    Split ' ' (TrimSpace x) ≠ []
      ∧ (∃ e, ParseTransaction (blanks ++ x :: rest)
          = ((⟨0, ⟨[], 0, []⟩, []⟩,
              some (Error.NumError ((Split ' ' (TrimSpace x)).getLastD []) e)), rest))
      ∧ (ParseTransaction (blanks ++ x :: rest)).1.2 ≠ none
      ∧ (ParseTransaction (blanks ++ x :: rest)).1.2 ≠ some Error.EOF := by
  obtain ⟨v, e, hu⟩ := ParseUint_bad _ hbad
  have hu2 : (ParseUint ((Split ' ' (TrimSpace x)).getLastD [])).2
      = some (Error.NumError ((Split ' ' (TrimSpace x)).getLastD []) e) := by rw [hu]
  have hcont : ∀ raw ∈ blanks, Continues raw := fun raw hr => Or.inl (hb raw hr)
  have hrun : ParseTransaction (blanks ++ x :: rest)
      = ((⟨0, ⟨[], 0, []⟩, []⟩,
          some (Error.NumError ((Split ' ' (TrimSpace x)).getLastD []) e)), rest) := by
    unfold ParseTransaction
    rw [loop_run blanks _ _ hcont, loop_boundary_error _ x rest hp _ hu2]
    rw [contentLines_of_blank blanks hb, boundaryIds_of_blank blanks hb]
    rfl
  refine ⟨Split_ne_nil _ _, ⟨e, hrun⟩, ?_, ?_⟩
  · rw [hrun]
    exact Option.some_ne_none _
  · rw [hrun]
    intro hc
    cases hc

/-- C12 on the boundary line `* << Request >> abc` after a blank line. -/
theorem C12_witness :
    ((∀ raw ∈ ["".toList], TrimSpace raw = [])
        ∧ HasPrefix (TrimSpace "* << Request >> abc".toList) '*' = true
        ∧ ¬ ((Split ' ' (TrimSpace "* << Request >> abc".toList)).getLastD [] ≠ []
          ∧ ∀ c ∈ (Split ' ' (TrimSpace "* << Request >> abc".toList)).getLastD [],
              isDigit c = true))
      ∧ (ParseTransaction (["".toList] ++ "* << Request >> abc".toList
            :: ["- End".toList])).1.2 ≠ some Error.EOF :=
  ⟨⟨by decide, by decide, by decide⟩,
    (C12_bad_boundary ["".toList] ["- End".toList] "* << Request >> abc".toList
      (by decide) (by decide) (by decide)).2.2.2⟩

/-! ## Boundary lines and `Begin` lines -/

/-- C13, as stated, fails: the boundary line is split on the space character only, so on
the line `*`, `<<`, `Request`, `>>`, `32770` separated by tabs the last field is the whole
line and the read fails with a number-parsing error instead of returning `VXID` 32770. -/
theorem C13_counterexample :
    HasPrefix (TrimSpace "*\t<<\tRequest\t>>\t32770".toList) '*' = true
      ∧ ParseTransaction ["*\t<<\tRequest\t>>\t32770".toList, "-   End".toList]
          = ((⟨0, ⟨[], 0, []⟩, []⟩,
              some (Error.NumError "*\t<<\tRequest\t>>\t32770".toList NumErr.ErrSyntax)),
            ["-   End".toList])
      ∧ (ParseTransaction ["*\t<<\tRequest\t>>\t32770".toList, "-   End".toList]).1.2
          ≠ none := by
  decide

/-- C13 (amended): the transaction identifier is the final space-delimited field of the
boundary line. For a line that, trimmed, is `*`, any text, a space, and the decimal numeral
`dstr` of some `id < 2^64`, read after lines that let the read go on, `ParseTransaction`
accepts the line as a boundary, and when the lines that follow hold no other boundary line
and lead without error to a line tagged `End`, the transaction returned has the nil error
and `VXID = id`. -/
theorem C13_boundary_id (pre mid rest : List GoString) (x e m dstr : GoString) (id : Nat)
    (hpre : ∀ raw ∈ pre, Continues raw)
    (hx : TrimSpace x = "*".toList ++ m ++ " ".toList ++ dstr)
    (hne : dstr ≠ []) (hdig : ∀ c ∈ dstr, isDigit c = true)
    (hval : decimalValue dstr = id) (hid : id < 2 ^ 64)
    (hmid : ∀ raw ∈ mid, Continues raw ∧ HasPrefix (TrimSpace raw) '*' = false)
    (he : Ends e) :
    (ParseTransaction (pre ++ [x] ++ mid ++ [e] ++ rest)).1.2 = none
      ∧ (ParseTransaction (pre ++ [x] ++ mid ++ [e] ++ rest)).1.1.VXID = id := by
  subst hval
  have hx' : TrimSpace x = '*' :: (m ++ ' ' :: dstr) := by rw [hx]; simp
  obtain ⟨hb1, hb2⟩ := boundary_line_ok _ m dstr hx' hne hdig hid
  have hcx : Continues x := Or.inr (Or.inl ⟨hb1, by rw [hb2]⟩)
  have hall : ∀ raw ∈ pre ++ [x] ++ mid, Continues raw := by
    intro raw hraw
    simp only [List.mem_append, List.mem_singleton] at hraw
    rcases hraw with (h | h) | h
    · exact hpre raw h
    · rw [h]; exact hcx
    · exact (hmid raw h).1
  have e1 : pre ++ [x] ++ mid ++ [e] ++ rest = (pre ++ [x] ++ mid) ++ e :: rest := by simp
  unfold ParseTransaction
  rw [e1, loop_block_cons _ rest e _ hall he]
  refine ⟨rfl, ?_⟩
  show (boundaryIds (pre ++ [x] ++ mid)).getLastD 0 = decimalValue dstr
  rw [boundaryIds_append, boundaryIds_append,
    boundaryIds_of_no_boundary mid (fun raw h => (hmid raw h).2),
    boundaryIds_cons_boundary x [] hb1, hb2, List.append_nil]
  show (boundaryIds pre ++ [toUint (decimalValue dstr)]).getLastD 0 = decimalValue dstr
  rw [List.getLastD_concat, toUint_of_lt _ hid]

/-- C13 (amended) on the boundary line `*   << Request  >> 32770`. -/
theorem C13_witness :
    ((∀ raw ∈ ([] : List GoString), Continues raw)
        ∧ TrimSpace "*   << Request  >> 32770".toList
            = "*".toList ++ "   << Request  >>".toList ++ " ".toList ++ "32770".toList
        ∧ "32770".toList ≠ [] ∧ (∀ c ∈ "32770".toList, isDigit c = true)
        ∧ decimalValue "32770".toList = 32770 ∧ 32770 < 2 ^ 64
        ∧ (∀ raw ∈ ["-   ReqURL   /200".toList],
            Continues raw ∧ HasPrefix (TrimSpace raw) '*' = false)
        ∧ Ends "-   End".toList)
      ∧ (ParseTransaction ([] ++ ["*   << Request  >> 32770".toList]
            ++ ["-   ReqURL   /200".toList] ++ ["-   End".toList] ++ [])).1.1.VXID = 32770 :=
  ⟨⟨by decide, by decide, by decide, by decide, by decide, by decide, by decide, by decide⟩,
    (C13_boundary_id [] ["-   ReqURL   /200".toList] [] "*   << Request  >> 32770".toList
      "-   End".toList "   << Request  >>".toList "32770".toList 32770
      (by decide) (by decide) (by decide) (by decide) (by decide) (by decide) (by decide)
      (by decide)).2⟩

/-- C14, as stated, fails: a boundary line only overwrites the identifier. On the stream
`* 1`, `- Begin req 9 rxreq`, `- A x`, `* 2`, `- B y`, `- End` the transaction returned has
`VXID` 2 but keeps the two lines read before the second boundary line, and its `Begin` is
the reference read there, not the zero `Reference`. -/
theorem C14_counterexample :
    ParseTransaction ["* 1".toList, "- Begin req 9 rxreq".toList, "- A x".toList,
        "* 2".toList, "- B y".toList, "- End".toList]
      = ((⟨2, ⟨"req".toList, 9, "rxreq".toList⟩,
          [⟨"Begin".toList, "req 9 rxreq".toList⟩, ⟨"A".toList, "x".toList⟩,
            ⟨"B".toList, "y".toList⟩, ⟨"End".toList, []⟩]⟩, none), [])
      ∧ (ParseTransaction ["* 1".toList, "- Begin req 9 rxreq".toList, "- A x".toList,
          "* 2".toList, "- B y".toList, "- End".toList]).1.1.Lines
        ≠ [⟨"B".toList, "y".toList⟩, ⟨"End".toList, []⟩]
      ∧ (ParseTransaction ["* 1".toList, "- Begin req 9 rxreq".toList, "- A x".toList,
          "* 2".toList, "- B y".toList, "- End".toList]).1.1.Begin ≠ ⟨[], 0, []⟩ := by
  decide

/-- C14 (amended): a boundary line in the middle of an unterminated transaction replaces
the identifier and nothing else. For a stream made of a boundary line with `id1`, content
lines `a`, a boundary line with `id2`, content lines `b` and a line tagged `End`, where `a`
and `b` are well-formed content lines not tagged `End`, `ParseTransaction` returns the nil
error, `VXID = id2`, `Lines` the parsed lines of `a`, then of `b`, then the `End` line, and
`Begin` the reference of the last line tagged `Begin` in `a` and `b` together (the zero
`Reference` when there is none). -/
theorem C14_boundary_mid (id1 id2 : Nat) (m1 d1 m2 d2 : GoString) (a b : List GoString)
    (e : GoString)
    (hne1 : d1 ≠ []) (hdig1 : ∀ c ∈ d1, isDigit c = true)
    (hval1 : decimalValue d1 = id1) (hid1 : id1 < 2 ^ 64)
    (hne2 : d2 ≠ []) (hdig2 : ∀ c ∈ d2, isDigit c = true)
    (hval2 : decimalValue d2 = id2) (hid2 : id2 < 2 ^ 64)
    (ha : ∀ c ∈ a, ContentLine c) (hb : ∀ c ∈ b, ContentLine c) (he : Ends e) :
    ParseTransaction
        ([("*".toList ++ m1 ++ " ".toList ++ d1)] ++ a
          ++ [("*".toList ++ m2 ++ " ".toList ++ d2)] ++ b ++ [e]) =
      ((⟨id2,
          (beginRefs (a.map (fun c => (ParseLine (TrimSpace c)).1)
            ++ b.map (fun c => (ParseLine (TrimSpace c)).1))).getLastD ⟨[], 0, []⟩,
          a.map (fun c => (ParseLine (TrimSpace c)).1)
            ++ b.map (fun c => (ParseLine (TrimSpace c)).1)
            ++ [(ParseLine (TrimSpace e)).1]⟩, none), []) := by
  subst hval1
  subst hval2
  have eb1 : "*".toList ++ m1 ++ " ".toList ++ d1 = '*' :: (m1 ++ ' ' :: d1) := by simp
  have eb2 : "*".toList ++ m2 ++ " ".toList ++ d2 = '*' :: (m2 ++ ' ' :: d2) := by simp
  obtain ⟨hp1, hu1⟩ := boundary_ok m1 d1 hne1 hdig1 hid1
  obtain ⟨hp2, hu2⟩ := boundary_ok m2 d2 hne2 hdig2 hid2
  rw [eb1, eb2]
  have hall : ∀ raw ∈ [('*' :: (m1 ++ ' ' :: d1))] ++ a ++ [('*' :: (m2 ++ ' ' :: d2))] ++ b,
      Continues raw := by
    intro raw hraw
    simp only [List.mem_append, List.mem_singleton] at hraw
    rcases hraw with ((h | h) | h) | h
    · rw [h]; exact Or.inr (Or.inl ⟨hp1, by rw [hu1]⟩)
    · exact ContentLine_continues raw (ha raw h)
    · rw [h]; exact Or.inr (Or.inl ⟨hp2, by rw [hu2]⟩)
    · exact ContentLine_continues raw (hb raw h)
  have hblock := loop_block _ [] e ⟨0, ⟨[], 0, []⟩, []⟩ hall he
  rw [List.append_nil] at hblock
  unfold ParseTransaction
  rw [hblock]
  simp only [boundaryIds_append, contentLines_append]
  rw [boundaryIds_cons_boundary _ [] hp1, boundaryIds_cons_boundary _ [] hp2,
    boundaryIds_of_content a ha, boundaryIds_of_content b hb,
    contentLines_cons_skip _ [] (Or.inr hp1), contentLines_cons_skip _ [] (Or.inr hp2),
    contentLines_of_content a ha, contentLines_of_content b hb, hu1, hu2]
  have hnil1 : boundaryIds [] = [] := rfl
  have hnil2 : contentLines [] = [] := rfl
  rw [hnil1, hnil2]
  simp only [List.append_nil, List.nil_append]
  rw [List.getLastD_concat, toUint_of_lt _ hid2]

/-- C14 (amended) on the stream `* 1`, `- Begin req 9 rxreq`, `- A x`, `* 2`, `- B y`,
`- End`. -/
theorem C14_witness :
    ("1".toList ≠ [] ∧ (∀ c ∈ "1".toList, isDigit c = true) ∧ decimalValue "1".toList = 1
        ∧ "2".toList ≠ [] ∧ (∀ c ∈ "2".toList, isDigit c = true)
        ∧ decimalValue "2".toList = 2
        ∧ (∀ c ∈ ["- Begin req 9 rxreq".toList, "- A x".toList], ContentLine c)
        ∧ (∀ c ∈ ["- B y".toList], ContentLine c) ∧ Ends "- End".toList)
      ∧ ParseTransaction
          ([("*".toList ++ [] ++ " ".toList ++ "1".toList)]
            ++ ["- Begin req 9 rxreq".toList, "- A x".toList]
            ++ [("*".toList ++ [] ++ " ".toList ++ "2".toList)] ++ ["- B y".toList]
            ++ ["- End".toList])
        = ((⟨2, ⟨"req".toList, 9, "rxreq".toList⟩,
            [⟨"Begin".toList, "req 9 rxreq".toList⟩, ⟨"A".toList, "x".toList⟩,
              ⟨"B".toList, "y".toList⟩, ⟨"End".toList, []⟩]⟩, none), []) :=
  ⟨⟨by decide, by decide, by decide, by decide, by decide, by decide, by decide, by decide,
      by decide⟩,
    C14_boundary_mid 1 2 [] "1".toList [] "2".toList
      ["- Begin req 9 rxreq".toList, "- A x".toList] ["- B y".toList] "- End".toList
      (by decide) (by decide) (by decide) (by decide) (by decide) (by decide) (by decide)
      (by decide) (by decide) (by decide) (by decide)⟩

/-- C15, as stated, fails: each line tagged `Begin` overwrites the field. On the stream
`* 1`, `- Begin req 1 a`, `- Begin req 2 b`, `- End` the transaction's `Begin` is the
reference of the second `Begin` line, `{req, 2, b}`, not `ParseReference` of the value of
the first one. -/
theorem C15_counterexample :
    ParseTransaction ["* 1".toList, "- Begin req 1 a".toList, "- Begin req 2 b".toList,
        "- End".toList]
      = ((⟨1, ⟨"req".toList, 2, "b".toList⟩,
          [⟨"Begin".toList, "req 1 a".toList⟩, ⟨"Begin".toList, "req 2 b".toList⟩,
            ⟨"End".toList, []⟩]⟩, none), [])
      ∧ (ParseTransaction ["* 1".toList, "- Begin req 1 a".toList,
          "- Begin req 2 b".toList, "- End".toList]).1.1.Begin
        ≠ (ParseReference "req 1 a".toList).1 := by
  decide

/-- C15 (amended): when a transaction has several `Begin` lines the last one wins. For a
complete block (a boundary line with a valid identifier, well-formed content lines, a line
tagged `End`) that holds two or more lines tagged `Begin`, each with a well-formed reference
value, `ParseTransaction` returns the nil error and the `Begin` field of the transaction
is `ParseReference` of the value of the last line tagged `Begin` in stream order. -/
theorem C15_last_begin (x e : GoString) (cs : List GoString)
    (hx : HasPrefix (TrimSpace x) '*' = true
      ∧ (ParseUint ((Split ' ' (TrimSpace x)).getLastD [])).2 = none)
    (hcs : ∀ c ∈ cs, ContentLine c)
    (htwo : 2 ≤ ((cs.map (fun c => (ParseLine (TrimSpace c)).1)).filter
      (fun l => l.Tag = "Begin".toList)).length)
    (he : Ends e) :
    (ParseTransaction ([x] ++ cs ++ [e])).1.2 = none
      ∧ ∃ l, ((cs.map (fun c => (ParseLine (TrimSpace c)).1)).filter
            (fun l => l.Tag = "Begin".toList)).getLast? = some l
          ∧ (ParseTransaction ([x] ++ cs ++ [e])).1.1.Begin = (ParseReference l.Value).1 := by
  have hall : ∀ raw ∈ [x] ++ cs, Continues raw := by
    intro raw hraw
    simp only [List.mem_append, List.mem_singleton] at hraw
    rcases hraw with h | h
    · rw [h]; exact Or.inr (Or.inl hx)
    · exact ContentLine_continues raw (hcs raw h)
  have hblock := loop_block _ [] e ⟨0, ⟨[], 0, []⟩, []⟩ hall he
  rw [List.append_nil] at hblock
  unfold ParseTransaction
  rw [hblock]
  refine ⟨rfl, ?_⟩
  have hne : (cs.map (fun c => (ParseLine (TrimSpace c)).1)).filter
      (fun l => l.Tag = "Begin".toList) ≠ [] := by
    intro h0
    rw [h0] at htwo
    simp at htwo
  refine ⟨_, List.getLast?_eq_getLast _ hne, ?_⟩
  show (beginRefs (contentLines ([x] ++ cs))).getLastD ⟨[], 0, []⟩ = _
  rw [contentLines_append, contentLines_cons_skip x [] (Or.inr hx.1),
    contentLines_of_content cs hcs]
  have hnil : contentLines [] = [] := rfl
  rw [hnil, List.nil_append, List.getLastD_eq_getLast?, beginRefs, List.getLast?_map,
    List.getLast?_eq_getLast _ hne]
  rfl

/-- C15 (amended) on the stream `* 1`, `- Begin req 1 a`, `- Begin req 2 b`, `- End`. -/
theorem C15_witness :
    ((HasPrefix (TrimSpace "* 1".toList) '*' = true
          ∧ (ParseUint ((Split ' ' (TrimSpace "* 1".toList)).getLastD [])).2 = none)
        ∧ (∀ c ∈ ["- Begin req 1 a".toList, "- Begin req 2 b".toList], ContentLine c)
        ∧ Ends "- End".toList)
      ∧ ∃ l, ((["- Begin req 1 a".toList, "- Begin req 2 b".toList].map
              (fun c => (ParseLine (TrimSpace c)).1)).filter
            (fun l => l.Tag = "Begin".toList)).getLast? = some l
          ∧ (ParseTransaction (["* 1".toList]
              ++ ["- Begin req 1 a".toList, "- Begin req 2 b".toList]
              ++ ["- End".toList])).1.1.Begin = (ParseReference l.Value).1 :=
  ⟨⟨by decide, by decide, by decide⟩,
    (C15_last_begin "* 1".toList "- End".toList
      ["- Begin req 1 a".toList, "- Begin req 2 b".toList]
      (by decide) (by decide) (by decide) (by decide)).2⟩

/-! ## Blank lines, and what a read returns -/

/-- C16: blank lines are ignored wherever they occur. For every finite stream `s`,
`ParseTransaction` on `s` and on `s` without its blank lines (the lines that are empty once
trimmed) return the same `Transaction` and the same error, and the lines left unread are
the same once the blank lines are removed from both. -/
theorem C16_blank_lines_ignored (s : List GoString) :
    (ParseTransaction s).1 = (ParseTransaction (dropBlank s)).1
      ∧ dropBlank (ParseTransaction s).2 = dropBlank (ParseTransaction (dropBlank s)).2 := by
  unfold ParseTransaction
  exact loop_dropBlank s _

/-- C17: a successful read ends at the first `End` line and keeps it. For every finite
stream, `ParseTransaction` returns the nil error if and only if the stream holds a line
whose tag, once trimmed and parsed, is exactly `End`, after lines that neither fail nor
are tagged `End`; and whenever the error is nil, `Lines` is non-empty, its last element is
that line and has the tag `End`, no earlier element has the tag `End`, and the lines after
that `End` line are left unread. -/
theorem C17_success_iff_End (s : List GoString) :
    ((ParseTransaction s).1.2 = none ↔
        ∃ pre e rest, s = pre ++ e :: rest ∧ (∀ raw ∈ pre, Continues raw) ∧ Ends e)
      ∧ ((ParseTransaction s).1.2 = none →
          ∃ pre e rest, s = pre ++ e :: rest ∧ (∀ raw ∈ pre, Continues raw) ∧ Ends e
            ∧ (ParseTransaction s).2 = rest
            ∧ (ParseTransaction s).1.1.Lines ≠ []
            ∧ ∃ init last, (ParseTransaction s).1.1.Lines = init ++ [last]
                ∧ last = (ParseLine (TrimSpace e)).1
                ∧ last.Tag = "End".toList
                ∧ ∀ l ∈ init, l.Tag ≠ "End".toList) := by
  have hsucc : ∀ pre e rest, s = pre ++ e :: rest → (∀ raw ∈ pre, Continues raw) → Ends e →
      ParseTransaction s =
        ((⟨(boundaryIds pre).getLastD 0, (beginRefs (contentLines pre)).getLastD ⟨[], 0, []⟩,
            [] ++ contentLines pre ++ [(ParseLine (TrimSpace e)).1]⟩, none), rest) := by
    intro pre e rest hs hpre he
    unfold ParseTransaction
    rw [hs, loop_block_cons pre rest e _ hpre he]
  have hdecomp : (ParseTransaction s).1.2 = none →
      ∃ pre e rest, s = pre ++ e :: rest ∧ (∀ raw ∈ pre, Continues raw) ∧ Ends e := by
    intro hnil
    rcases stream_cases s with hall | ⟨pre, x, rest, hs, hpre, hx⟩
    · unfold ParseTransaction at hnil
      rw [loop_eof s _ hall] at hnil
      cases hnil
    · rcases hx with he | ⟨err, hf⟩
      · exact ⟨pre, x, rest, hs, hpre, he⟩
      · unfold ParseTransaction at hnil
        rw [hs, loop_fail_at pre rest x _ err hpre hf] at hnil
        cases hnil
  refine ⟨⟨hdecomp, ?_⟩, ?_⟩
  · rintro ⟨pre, e, rest, hs, hpre, he⟩
    rw [hsucc pre e rest hs hpre he]
  · intro hnil
    obtain ⟨pre, e, rest, hs, hpre, he⟩ := hdecomp hnil
    refine ⟨pre, e, rest, hs, hpre, he, ?_, ?_, contentLines pre, (ParseLine (TrimSpace e)).1,
      ?_, rfl, he.2, contentLines_not_End pre hpre⟩
    · rw [hsucc pre e rest hs hpre he]
    · rw [hsucc pre e rest hs hpre he]
      simp
    · rw [hsucc pre e rest hs hpre he]
      simp

/-- C17 on the stream `* 1`, `- end`, `- Ending x`, `- End`, `- After y`: the tags `end`
and `Ending` do not end the read, the line tagged `End` does, and the line after it is left
unread. -/
theorem C17_witness :
    ParseTransaction ["* 1".toList, "- end".toList, "- Ending x".toList, "- End".toList,
        "- After y".toList]
      = ((⟨1, ⟨[], 0, []⟩,
          [⟨"end".toList, []⟩, ⟨"Ending".toList, "x".toList⟩, ⟨"End".toList, []⟩]⟩, none),
        ["- After y".toList])
      ∧ ((ParseTransaction ["* 1".toList, "- end".toList, "- Ending x".toList,
            "- End".toList, "- After y".toList]).1.2 = none ↔
          ∃ pre e rest, ["* 1".toList, "- end".toList, "- Ending x".toList, "- End".toList,
              "- After y".toList] = pre ++ e :: rest
            ∧ (∀ raw ∈ pre, Continues raw) ∧ Ends e) :=
  ⟨by decide,
    (C17_success_iff_End ["* 1".toList, "- end".toList, "- Ending x".toList, "- End".toList,
      "- After y".toList]).1⟩

/-- C18: `Lines` holds only parsed content lines, never a boundary marker. For every
finite stream and whatever the outcome, the lines consumed are a prefix of the stream, and
`Lines` is, in stream order, `ParseLine` of the trimmed text of the consumed lines on
which it succeeds; each such line is non-blank and does not start with `*`; and every
element of `Lines` has a non-empty tag made only of word characters. -/
theorem C18_lines_parsed (s : List GoString) :
    ∃ consumed, s = consumed ++ (ParseTransaction s).2
      ∧ (ParseTransaction s).1.1.Lines
          = (consumed.filter (fun raw => decide ((ParseLine (TrimSpace raw)).2 = none))).map
              (fun raw => (ParseLine (TrimSpace raw)).1)
      ∧ (∀ raw ∈ consumed.filter (fun raw => decide ((ParseLine (TrimSpace raw)).2 = none)),
          TrimSpace raw ≠ [] ∧ HasPrefix (TrimSpace raw) '*' = false)
      ∧ ∀ l ∈ (ParseTransaction s).1.1.Lines, l.Tag ≠ [] ∧ ∀ c ∈ l.Tag, reWord c = true := by
  obtain ⟨consumed, hs, hl⟩ := loop_lines s ⟨0, ⟨[], 0, []⟩, []⟩
  have hl' : (ParseTransaction s).1.1.Lines = parsedLines consumed := by
    unfold ParseTransaction
    rw [hl]
    rfl
  refine ⟨consumed, hs, ?_, ?_, ?_⟩
  · rw [hl', parsedLines_eq_filter_map]
  · intro raw hraw
    have hok : (ParseLine (TrimSpace raw)).2 = none := by
      simpa using (List.mem_filter.mp hraw).2
    exact ParseLine_ok_not_blank _ hok
  · rw [hl']
    exact parsedLines_tag consumed

/-! ## Identifiers, and streams without a boundary line -/

/-- C19: identifiers that do not fit 64 bits are rejected, never wrapped. For a decimal
numeral `dstr` whose value is at least `2^64`: `ParseReference (t ++ " " ++ dstr ++ " " ++ r)`
returns an error and the zero `Reference`; a boundary line ending in `dstr`, reached
without error, makes `ParseTransaction` return an error that is not `io.EOF`. And a
`Reference` returned without error has three fields whose middle one is a string of digits
with `VXID` its exact value, and the `VXID` of a `Transaction` returned without error is the
exact value of the digits in the last field of the last boundary line read (0 when no
boundary line was read). -/
theorem C19_no_wrap (dstr : GoString) (hne : dstr ≠ [])
    (hdig : ∀ c ∈ dstr, isDigit c = true) (hbig : 2 ^ 64 ≤ decimalValue dstr) :
    (∀ t r, (ParseReference (t ++ " ".toList ++ dstr ++ " ".toList ++ r)).2 ≠ none
        ∧ (ParseReference (t ++ " ".toList ++ dstr ++ " ".toList ++ r)).1 = ⟨[], 0, []⟩)
      ∧ (∀ pre rest x m, (∀ raw ∈ pre, Continues raw) →
          TrimSpace x = "*".toList ++ m ++ dstr →
          (ParseTransaction (pre ++ [x] ++ rest)).1.2 ≠ none
            ∧ (ParseTransaction (pre ++ [x] ++ rest)).1.2 ≠ some Error.EOF)
      ∧ (∀ s, (ParseReference s).2 = none →
          ∃ t d r, s = t ++ " ".toList ++ d ++ " ".toList ++ r ∧ d ≠ []
            ∧ (∀ c ∈ d, isDigit c = true) ∧ (ParseReference s).1.VXID = decimalValue d)
      ∧ (∀ s, (ParseTransaction s).1.2 = none →
          ∃ pre e rest, s = pre ++ e :: rest
            ∧ (∀ raw ∈ pre.filter (fun raw => HasPrefix (TrimSpace raw) '*'),
                (Split ' ' (TrimSpace raw)).getLastD [] ≠ []
                  ∧ ∀ c ∈ (Split ' ' (TrimSpace raw)).getLastD [], isDigit c = true)
            ∧ (ParseTransaction s).1.1.VXID
                = ((pre.filter (fun raw => HasPrefix (TrimSpace raw) '*')).map
                    (fun raw => decimalValue ((Split ' ' (TrimSpace raw)).getLastD []))
                  ).getLastD 0) := by
  have hds : ' ' ∉ dstr := fun hm => isDigit_ne_space ' ' (hdig ' ' hm) rfl
  refine ⟨?_, ?_, ?_, ?_⟩
  · intro t r
    have herr : (ParseReference (t ++ " ".toList ++ dstr ++ " ".toList ++ r)).2 ≠ none := by
      have e : t ++ " ".toList ++ dstr ++ " ".toList ++ r = t ++ ' ' :: (dstr ++ ' ' :: r) := by
        simp
      rw [e]
      by_cases hsp : ' ' ∈ t ∨ ' ' ∈ r
      · apply ParseReference_count_ne
        have hcount : (t ++ ' ' :: (dstr ++ ' ' :: r)).count ' '
            = t.count ' ' + (1 + (dstr.count ' ' + (1 + r.count ' '))) := by
          simp [List.count_append, List.count_cons]
          omega
        rw [hcount]
        rcases hsp with h | h
        · have := List.count_pos_iff.mpr h
          omega
        · have := List.count_pos_iff.mpr h
          omega
      · push_neg at hsp
        unfold ParseReference
        rw [Split_append ' ' t _ hsp.1, Split_append ' ' dstr _ hds,
          Split_of_not_mem ' ' r hsp.2]
        simp only [ParseUint_range dstr hne hdig hbig]
        exact Option.some_ne_none _
    refine ⟨herr, ?_⟩
    cases he : (ParseReference (t ++ " ".toList ++ dstr ++ " ".toList ++ r)).2 with
    | none => exact absurd he herr
    | some err => exact (ParseReference_error _ err he).1
  · intro pre rest x m hpre hx
    have hx' : TrimSpace x = ('*' :: m) ++ dstr := by rw [hx]; simp
    obtain ⟨a, ha⟩ := getLastD_Split_suffix ('*' :: m) dstr hds
    rw [← hx'] at ha
    have hp : HasPrefix (TrimSpace x) '*' = true := by rw [hx']; rfl
    have hne' : (ParseUint ((Split ' ' (TrimSpace x)).getLastD [])).2 ≠ none := by
      rw [ha]
      exact ParseUint_suffix_big a dstr hbig
    cases hu : (ParseUint ((Split ' ' (TrimSpace x)).getLastD [])).2 with
    | none => exact absurd hu hne'
    | some err =>
      have hf : Fails x err := Or.inl ⟨hp, hu⟩
      have e : pre ++ [x] ++ rest = pre ++ x :: rest := by simp
      unfold ParseTransaction
      rw [e, loop_fail_at pre rest x _ err hpre hf]
      refine ⟨Option.some_ne_none _, ?_⟩
      intro hc
      exact Fails_ne_EOF x err hf (Option.some.inj hc)
  · intro s hs
    obtain ⟨t, d, r, h1, h2, h3, _, h5⟩ := ParseReference_ok s hs
    refine ⟨t, d, r, ?_, h2, h3, ?_⟩
    · rw [h1]
      simp
    · rw [h5]
  · intro s hnil
    rcases stream_cases s with hall | ⟨pre, x, rest, hs, hpre, hx⟩
    · unfold ParseTransaction at hnil
      rw [loop_eof s _ hall] at hnil
      cases hnil
    · rcases hx with he | ⟨err, hf⟩
      · refine ⟨pre, x, rest, hs, ?_, ?_⟩
        · intro raw hraw
          obtain ⟨hmem, hp⟩ := List.mem_filter.mp hraw
          have hu : (ParseUint ((Split ' ' (TrimSpace raw)).getLastD [])).2 = none := by
            rcases hpre raw hmem with hb | ⟨_, hu⟩ | ⟨hl, _, _⟩
            · rw [hb] at hp
              cases hp
            · exact hu
            · exact absurd hl (ParseLine_boundary_fails _ hp)
          obtain ⟨h1, h2, _, _⟩ := ParseUint_ok _ hu
          exact ⟨h1, h2⟩
        · unfold ParseTransaction
          rw [hs, loop_block_cons pre rest x _ hpre he, boundaryIds_exact pre hpre]
      · unfold ParseTransaction at hnil
        rw [hs, loop_fail_at pre rest x _ err hpre hf] at hnil
        cases hnil

/-- C19 on the numeral `18446744073709551616`, which is `2^64`. -/
theorem C19_witness :
    ("18446744073709551616".toList ≠ []
        ∧ (∀ c ∈ "18446744073709551616".toList, isDigit c = true)
        ∧ 2 ^ 64 ≤ decimalValue "18446744073709551616".toList)
      ∧ (ParseReference ("req".toList ++ " ".toList ++ "18446744073709551616".toList
            ++ " ".toList ++ "rxreq".toList)).2 ≠ none
      ∧ (ParseReference ("req".toList ++ " ".toList ++ "18446744073709551616".toList
            ++ " ".toList ++ "rxreq".toList)).1 = ⟨[], 0, []⟩ :=
  ⟨⟨by decide, by decide, by decide⟩,
    (C19_no_wrap "18446744073709551616".toList (by decide) (by decide) (by decide)).1
      "req".toList "rxreq".toList⟩

/-- C20: content lines are accepted without a preceding boundary line. For a stream of
well-formed content lines `cs` (none starts with `*`) followed by a line tagged `End`,
`ParseTransaction` does not fail: it returns the nil error, leaves nothing unread, and the
`Transaction` has `VXID = 0`, `Lines` the parsed lines of `cs` followed by the `End` line,
and `Begin` the reference of the line tagged `Begin` (of the last one when there are
several, the zero `Reference` when there is none). -/
theorem C20_no_boundary (cs : List GoString) (e : GoString)
    (hcs : ∀ c ∈ cs, ContentLine c) (he : Ends e) :
    (∀ c ∈ cs ++ [e], HasPrefix (TrimSpace c) '*' = false)
      ∧ ParseTransaction (cs ++ [e]) =
        ((⟨0,
            (beginRefs (cs.map (fun c => (ParseLine (TrimSpace c)).1))).getLastD ⟨[], 0, []⟩,
            cs.map (fun c => (ParseLine (TrimSpace c)).1) ++ [(ParseLine (TrimSpace e)).1]⟩,
          none), []) := by
  constructor
  · intro c hc
    simp only [List.mem_append, List.mem_singleton] at hc
    rcases hc with h | h
    · exact (ParseLine_ok_not_blank _ (hcs c h).1).2
    · rw [h]
      exact (ParseLine_ok_not_blank _ he.1).2
  · have hall : ∀ raw ∈ cs, Continues raw := fun raw h => ContentLine_continues raw (hcs raw h)
    have hblock := loop_block cs [] e ⟨0, ⟨[], 0, []⟩, []⟩ hall he
    rw [List.append_nil] at hblock
    unfold ParseTransaction
    rw [hblock, boundaryIds_of_content cs hcs, contentLines_of_content cs hcs]
    rfl

/-- C20 on the stream `-   Begin   req 32769 rxreq`, `-   ReqURL   /200`, `-   End`. -/
theorem C20_witness :
    ((∀ c ∈ ["-   Begin   req 32769 rxreq".toList, "-   ReqURL   /200".toList], ContentLine c)
        ∧ Ends "-   End".toList)
      ∧ ParseTransaction (["-   Begin   req 32769 rxreq".toList, "-   ReqURL   /200".toList]
          ++ ["-   End".toList])
        = ((⟨0, ⟨"req".toList, 32769, "rxreq".toList⟩,
            [⟨"Begin".toList, "req 32769 rxreq".toList⟩, ⟨"ReqURL".toList, "/200".toList⟩,
              ⟨"End".toList, []⟩]⟩, none), []) :=
  ⟨⟨by decide, by decide⟩,
    (C20_no_boundary ["-   Begin   req 32769 rxreq".toList, "-   ReqURL   /200".toList]
      "-   End".toList (by decide) (by decide)).2⟩
end Varnishlog
